import Mathlib

/-!
Verification of the header-parsing and radiometric-correction pipeline of
`radiometric_corr.py` (functions `read_header` and
`apply_enhanced_radiometric_correction`).

The Python code is shallowly embedded: text is modelled as `List Char`,
Python `str` methods (`strip`, `split`, `lower`, `in`) as explicit list
functions, Python floats as `ℚ`, and the file-system effects of a run as an
explicit trace of events.  Fallible Python code returns `Except PyErr`.
-/

/-- The opening curly-brace character, written via its code point. -/
def lbrace : Char := Char.ofNat 123

/-- The closing curly-brace character, written via its code point. -/
def rbrace : Char := Char.ofNat 125

/-- Model of Python's notion of whitespace as used by `str.strip()`. -/
def isPySpace (c : Char) : Bool :=
  c == ' ' || c == '\t' || c == '\n' || c == '\r' || c == '\x0b' || c == '\x0c'

/-- Drop trailing Python whitespace. -/
def stripEnd (l : List Char) : List Char :=
  (l.reverse.dropWhile isPySpace).reverse

/-- Model of Python `str.strip()`: drop leading and trailing whitespace. -/
def pyStrip (l : List Char) : List Char :=
  stripEnd (l.dropWhile isPySpace)

/-- Model of Python `str.split(c, 1)`: split at the first occurrence of `c`.
Returns the part before the first `c` and, if `c` occurs, the part after it. -/
def splitFirst (c : Char) : List Char → List Char × Option (List Char)
  | [] => ([], none)
  | a :: rest =>
    if a = c then ([], some rest)
    else
      match splitFirst c rest with
      | (p, q) => (a :: p, q)

/-- Model of Python `str.split(c)` for a one-character separator:
`"".split(c) = [""]`, `"a,b".split(",") = ["a","b"]`, `",".split(",") = ["",""]`. -/
def pySplitChar (c : Char) : List Char → List (List Char)
  | [] => [[]]
  | a :: rest =>
    if a = c then [] :: pySplitChar c rest
    else
      match pySplitChar c rest with
      | [] => [[a]]
      | h :: t => (a :: h) :: t

/-- The decimal digit character for `n < 10`. -/
def digitChar (n : Nat) : Char := Char.ofNat (48 + n)

/-- Numeric value of a list of decimal digit characters (most significant first). -/
def digitsVal (l : List Char) : Nat :=
  l.foldl (fun a c => 10 * a + (c.toNat - 48)) 0

/-- Decimal digits accumulator with structural fuel; the fuel is never
exhausted when it is at least the number being printed. -/
def natToDecAux : Nat → Nat → List Char
  | 0, n => [digitChar n]
  | fuel + 1, n =>
    if n < 10 then [digitChar n]
    else natToDecAux fuel (n / 10) ++ [digitChar (n % 10)]

/-- Decimal digit characters of a natural number (no leading zeros, `0 ↦ "0"`). -/
def natToDec (n : Nat) : List Char := natToDecAux n n

/-- Parse a nonempty all-digit string as a natural number, else `none`. -/
def parseDigits? (l : List Char) : Option Nat :=
  if l.isEmpty then none
  else if l.all Char.isDigit then some (digitsVal l)
  else none

/-- Model of Python `int(s)` on strings: optional sign followed by decimal
digits, with surrounding whitespace allowed.  (Underscore separators and
non-ASCII digits, which CPython also accepts, are outside this model; no
input produced by this pipeline uses them.) -/
def pyInt? (l0 : List Char) : Option Int :=
  match pyStrip l0 with
  | [] => none
  | c :: rest =>
    if c = '+' then (parseDigits? rest).map (fun n => (n : Int))
    else if c = '-' then (parseDigits? rest).map (fun n => -(n : Int))
    else (parseDigits? (c :: rest)).map (fun n => (n : Int))

/-- Strip one leading sign character, reporting whether it was `-`. -/
def stripSign : List Char → Bool × List Char
  | [] => (false, [])
  | c :: rest =>
    if c = '-' then (true, rest)
    else if c = '+' then (false, rest)
    else (false, c :: rest)

/-- Parse the mantissa of a float literal: `digits [. digits]` or `. digits`
(also accepting `digits.`), as a rational. -/
def parseMantissa (l : List Char) : Option ℚ :=
  match splitFirst '.' l with
  | (intd, none) => (parseDigits? intd).map (fun n => (n : ℚ))
  | (intd, some fracd) =>
    if '.' ∈ fracd then none
    else if intd.isEmpty && fracd.isEmpty then none
    else if intd.all Char.isDigit && fracd.all Char.isDigit then
      some ((digitsVal intd : ℚ) + (digitsVal fracd : ℚ) / 10 ^ fracd.length)
    else none

/-- Model of Python `float(s)` on string literals of the shape
`[sign] (digits [. digits] | . digits | digits .) [e [sign] digits]`, with
surrounding whitespace allowed, as an exact rational.  (`inf`/`nan` and
underscore separators are outside this model; no input produced by this
pipeline uses them.) -/
def pyFloat? (l0 : List Char) : Option ℚ :=
  let sg := stripSign (pyStrip l0)
  match splitFirst 'e' (sg.2.map Char.toLower) with
  | (mant, none) => (parseMantissa mant).map (fun m => if sg.1 then -m else m)
  | (mant, some ex) =>
    match parseMantissa mant with
    | none => none
    | some m =>
      let esg := stripSign ex
      match parseDigits? esg.2 with
      | none => none
      | some e =>
        let v := if esg.1 then m / 10 ^ e else m * 10 ^ e
        some (if sg.1 then -v else v)

/-- Rounding used by 6-decimal fixed-point formatting: `⌊q·10⁶ + 1/2⌋`,
computed with integer floor division.  This models the rounding of CPython's
`f"{w:0.6f}"`; it is exact on every value with at most six decimal places
(ties, where CPython rounds half-to-even on the underlying double, cannot
occur for such values). -/
def ratRound6 (q : ℚ) : Int :=
  (2 * (q * 1000000).num + ((q * 1000000).den : Int)).fdiv (2 * ((q * 1000000).den : Int))

/-- Left-pad the decimal digits of `f` with zeros to width 6 (the fractional
part of 6-decimal formatting). -/
def pad6 (f : Nat) : List Char :=
  List.replicate (6 - (natToDec f).length) '0' ++ natToDec f

/-- Model of Python `f"{w:0.6f}"`: fixed-point formatting with six decimal
places. -/
def fmt6 (w : ℚ) : List Char :=
  (if ratRound6 w < 0 then ['-'] else []) ++
    natToDec ((ratRound6 w).natAbs / 1000000) ++ '.' :: pad6 ((ratRound6 w).natAbs % 1000000)

deriving instance DecidableEq for Except

/-- A parsed header value, as stored by `read_header` in `header_info`:
a raw string, an `int`, a list of floats, or a list of strings. -/
inductive HVal where
  | text (s : List Char)
  | int (n : Int)
  | floatList (xs : List ℚ)
  | strList (xs : List (List Char))
  deriving DecidableEq

/-- The header map.  Assignment conses the new binding to the front and
lookup takes the first match, which models the last-write-wins semantics of
the Python `dict`. -/
abbrev HMap := List (List Char × HVal)

/-- Dictionary lookup: the most recent binding of a key, if any. -/
def pyGet : HMap → List Char → Option HVal
  | [], _ => none
  | (k1, v) :: rest, k => if k1 = k then some v else pyGet rest k

/-- Errors a run of the Python code can raise.  `valueError` carries the
message; a Python `KeyError` carries the missing key. -/
inductive PyErr where
  | typeError
  | keyError (key : List Char)
  | valueError (msg : List Char)
  deriving DecidableEq

/-- `[float(x) for x in l]`: all-or-nothing float conversion, failing at the
first piece `float` rejects. -/
def traverseFloats : List (List Char) → Option (List ℚ)
  | [] => some []
  | p :: rest =>
    match pyFloat? p with
    | some q => (traverseFloats rest).map (fun qs => q :: qs)
    | none => none

/-- Lines 37–41 of `read_header`: convert the collected multi-line array
data, skipping empty pieces, to floats; on any `ValueError` fall back to the
raw string pieces (empty pieces included). -/
def decodeArrayData (pieces : List (List Char)) : HVal :=
  match traverseFloats (pieces.filter (fun p => p ≠ [])) with
  | some xs => HVal.floatList xs
  | none => HVal.strList pieces

/-- Lines 58–62 of `read_header`: a single-line braced value containing a
comma is comma-split; each stripped nonempty piece is converted to float,
falling back to the list of stripped nonempty string pieces. -/
def decodeSingleLineList (inner : List Char) : HVal :=
  match traverseFloats (((pySplitChar ',' inner).map pyStrip).filter (fun p => p ≠ [])) with
  | some xs => HVal.floatList xs
  | none => HVal.strList (((pySplitChar ',' inner).map pyStrip).filter (fun p => p ≠ []))

/-- The keys subject to integer conversion at line 65 of `read_header`. -/
def numericKeys : List (List Char) :=
  ["samples".toList, "lines".toList, "bands".toList, "data type".toList]

/-- Lines 64–69 of `read_header`: for the dimension keys, try `int(value)`.
A `ValueError` (string that is not an integer literal) is caught and the
string kept; `int` of a list raises an uncaught `TypeError`. -/
def intCoerce (key : List Char) (v : HVal) : Except PyErr HVal :=
  if key ∈ numericKeys then
    match v with
    | HVal.text s =>
      match pyInt? s with
      | some n => Except.ok (HVal.int n)
      | none => Except.ok (HVal.text s)
    | HVal.int n => Except.ok (HVal.int n)
    | HVal.floatList _ => Except.error PyErr.typeError
    | HVal.strList _ => Except.error PyErr.typeError
  else Except.ok v

/-- The text between the first `{` and the following first `}` of a braced
value, stripped (line 57 of `read_header`). -/
def bracedInner (value : List Char) : List Char :=
  pyStrip ((pySplitChar rbrace ((pySplitChar lbrace value).getD 1 [])).headD [])

/-- Lines 55–71 of `read_header` for a line handled in the idle state that is
not the start of a multi-line array: decode the value (extracting a same-line
braced list if present) and apply the integer coercion for dimension keys. -/
def decodeIdleValue (key value : List Char) : Except PyErr HVal :=
  if lbrace ∈ value ∧ rbrace ∈ value then
    if ',' ∈ bracedInner value then intCoerce key (decodeSingleLineList (bracedInner value))
    else intCoerce key (HVal.text (bracedInner value))
  else intCoerce key (HVal.text value)

/-- Parser state: the key of the array being collected (`[]` when idle, which
also models Python's falsy empty-string key), the pieces collected so far,
and the map built so far. -/
structure PState where
  cur : List Char
  arr : List (List Char)
  hmap : HMap
  deriving DecidableEq

/-- One iteration of `read_header`'s line loop (lines 26–71). -/
def stepLine (st : PState) (raw : List Char) : Except PyErr PState :=
  let line := pyStrip raw
  if line = [] then Except.ok st
  else if st.cur ≠ [] ∧ rbrace ∉ line then
    Except.ok ⟨st.cur, st.arr ++ (pySplitChar ',' line).map pyStrip, st.hmap⟩
  else if st.cur ≠ [] ∧ rbrace ∈ line then
    Except.ok ⟨[], [],
      (st.cur,
        decodeArrayData
          (st.arr ++ (pySplitChar ',' ((pySplitChar rbrace line).headD [])).map pyStrip)) ::
        st.hmap⟩
  else
    match splitFirst '=' line with
    | (_, none) => Except.ok st
    | (pre, some post) =>
      let key := (pyStrip pre).map Char.toLower
      let value := pyStrip post
      if lbrace ∈ value ∧ rbrace ∉ value then
        Except.ok ⟨key, (pySplitChar ',' ((pySplitChar lbrace value).getD 1 [])).map pyStrip,
          st.hmap⟩
      else
        match decodeIdleValue key value with
        | Except.ok v => Except.ok ⟨[], st.arr, (key, v) :: st.hmap⟩
        | Except.error e => Except.error e

/-- Run the line loop over a list of lines. -/
def runLines : PState → List (List Char) → Except PyErr PState
  | st, [] => Except.ok st
  | st, l :: rest =>
    match stepLine st l with
    | Except.ok st1 => runLines st1 rest
    | Except.error e => Except.error e

/-- `read_header`: parse the lines of a header file into a key/value map.
Reaching end of input while still collecting an array returns the map built
so far (the pending key is dropped). -/
def read_header (ls : List (List Char)) : Except PyErr HMap :=
  Except.map PState.hmap (runLines ⟨[], [], []⟩ ls)

/-- A `key = value` header line, as emitted by `f.write(f"key = {value}\n")`. -/
def kvLine (k v : List Char) : List Char := k ++ ' ' :: '=' :: ' ' :: v

/-- The value lines of the output wavelength block (lines 196–198 of the
source): each wavelength formatted to six decimals with a leading space,
comma-terminated except the last, which is closed by `}`. -/
def wlValueLines : List ℚ → List (List Char)
  | [] => []
  | [w] => [' ' :: (fmt6 w ++ [rbrace])]
  | w :: rest => (' ' :: (fmt6 w ++ [','])) :: wlValueLines rest

/-- An optional `key = value` line of the output header writer: present
exactly when the reference header carried the field. -/
def optLines (k : List Char) : Option (List Char) → List (List Char)
  | some v => [kvLine k v]
  | none => []

/-- Lines 182–207 of the source: the output header text, as a list of lines.
`ws = []` models a falsy wavelength value (block omitted); an optional field
that is `none` is omitted entirely. -/
def headerWriterLines (nsamples nlines nbands : Nat) (ws : List ℚ)
    (units acq sensor : Option (List Char)) : List (List Char) :=
  ["ENVI".toList,
   "description = \x7bRadiometrically corrected reflectance data\x7d".toList,
   kvLine "samples".toList (natToDec nsamples),
   kvLine "lines".toList (natToDec nlines),
   kvLine "bands".toList (natToDec nbands),
   "header offset = 0".toList,
   "file type = ENVI Standard".toList,
   "data type = 4".toList,
   "interleave = bsq".toList,
   "byte order = 0".toList] ++
  (if ws = [] then [] else "wavelength = \x7b".toList :: wlValueLines ws) ++
  optLines "wavelength units".toList units ++
  optLines "acquisition date".toList acq ++
  optLines "sensor type".toList sensor

/-- The validated header view named by the specification (§3 HeaderModel):
the cube dimensions, the optional wavelength table, and the optional
pass-through text fields. -/
structure HeaderModel where
  samples : Nat
  lines : Nat
  bands : Nat
  wavelength : Option (List ℚ)
  wavelengthUnits : Option (List Char)
  acquisitionDate : Option (List Char)
  sensorType : Option (List Char)
  deriving DecidableEq

/-- Serialize a `HeaderModel` with the output header writer. -/
def writeModel (m : HeaderModel) : List (List Char) :=
  headerWriterLines m.samples m.lines m.bands (m.wavelength.getD [])
    m.wavelengthUnits m.acquisitionDate m.sensorType

/-- The text of a parsed field, when the field is raw text. -/
def getText (hm : HMap) (k : List Char) : Option (List Char) :=
  match pyGet hm k with
  | some (HVal.text s) => some s
  | _ => none

/-- Project a parsed header map back onto the specification's `HeaderModel`
fields: integer dimensions, the float-list wavelength table, and the three
pass-through text fields. -/
def extractModel (hm : HMap) : Option HeaderModel :=
  match pyGet hm "samples".toList, pyGet hm "lines".toList, pyGet hm "bands".toList with
  | some (HVal.int s), some (HVal.int l), some (HVal.int b) =>
    if 0 ≤ s ∧ 0 ≤ l ∧ 0 ≤ b then
      some
        { samples := s.toNat, lines := l.toNat, bands := b.toNat,
          wavelength :=
            match pyGet hm "wavelength".toList with
            | some (HVal.floatList ws) => some ws
            | _ => none,
          wavelengthUnits := getText hm "wavelength units".toList,
          acquisitionDate := getText hm "acquisition date".toList,
          sensorType := getText hm "sensor type".toList }
    else none
  | _, _, _ => none

/-- Python truthiness of a header value (`if wavelengths:`). -/
def truthy : HVal → Bool
  | HVal.text s => !s.isEmpty
  | HVal.int n => n != 0
  | HVal.floatList xs => !xs.isEmpty
  | HVal.strList xs => !xs.isEmpty

/-- Lines 152–158 of the source: the per-band correction factor.  A truthy
wavelength float list indexed in range gives `1 + (wavelength[band] - 500)/1000`;
otherwise the factor is `1.0`.  A truthy non-list value raises `TypeError`
(`len` of an `int`), as does indexing a truthy string or string list in range
(string minus int). -/
def bandFactor (wl : Option HVal) (band : Nat) : Except PyErr ℚ :=
  match wl with
  | none => Except.ok 1
  | some v =>
    if truthy v then
      match v with
      | HVal.floatList ws =>
        if band < ws.length then Except.ok (1 + (ws.getD band 0 - 500) / 1000)
        else Except.ok 1
      | HVal.text s => if band < s.length then Except.error PyErr.typeError else Except.ok 1
      | HVal.strList xs => if band < xs.length then Except.error PyErr.typeError else Except.ok 1
      | HVal.int _ => Except.error PyErr.typeError
    else Except.ok 1

/-- Lines 167–170 of the source applied to one element: multiply by the
band's factor and clip to `[0, 1]` (`np.clip(chunk * factor, 0, 1)`:
products below 0 become 0, products above 1 become 1). -/
def correctValue (f x : ℚ) : ℚ :=
  if x * f < 0 then 0 else if 1 < x * f then 1 else x * f

/-- One corrected row. -/
def correctRow (f : ℚ) (row : List ℚ) : List ℚ := row.map (correctValue f)

/-- A data cube indexed as `cube[band][line][sample]`. -/
abbrev Cube := List (List (List ℚ))

/-- The chunk loop of lines 160–173 for one band, with chunk height `k + 1`:
each entry is the chunk's starting row and its corrected rows; the last chunk
is whatever rows remain.  The first argument after `k` is structural fuel,
never exhausted when it is at least the number of rows. -/
def chunkPiecesAux (f : ℚ) (k : Nat) : Nat → Nat → List (List ℚ) → List (Nat × List (List ℚ))
  | _, _, [] => []
  | 0, _, _ :: _ => []
  | fuel + 1, start, r :: rest =>
    (start, ((r :: rest).take (k + 1)).map (correctRow f)) ::
      chunkPiecesAux f k fuel (start + (k + 1)) ((r :: rest).drop (k + 1))

/-- A file-system effect of the run: opening a file for reading, creating or
truncating a file (`np.memmap(..., mode='w+')`), writing a chunk of corrected
rows at a band and starting row, or writing the output header text. -/
inductive FsEvent where
  | openRead (path : List Char)
  | create (path : List Char)
  | writeChunk (path : List Char) (band start : Nat) (data : List (List ℚ))
  | writeHeader (path : List Char) (content : List (List Char))
  deriving DecidableEq

/-- The file a file-system event touches. -/
def FsEvent.path : FsEvent → List Char
  | FsEvent.openRead p => p
  | FsEvent.create p => p
  | FsEvent.writeChunk p _ _ _ => p
  | FsEvent.writeHeader p _ => p

/-- Whether an event mutates the file it touches. -/
def FsEvent.isWrite : FsEvent → Bool
  | FsEvent.openRead _ => false
  | FsEvent.create _ => true
  | FsEvent.writeChunk _ _ _ _ => true
  | FsEvent.writeHeader _ _ => true

/-- One iteration of the band loop (lines 149–176): compute the factor, then
run the chunk loop; `chunk_size = 0` makes `range(0, nlines, 0)` raise. -/
def bandStep (pout : List Char) (wl : Option HVal) (cube : Cube) (cs : Nat) (band : Nat) :
    Except PyErr (List FsEvent × List (List ℚ)) :=
  match bandFactor wl band with
  | Except.error e => Except.error e
  | Except.ok f =>
    if cs = 0 then Except.error (PyErr.valueError "range() arg 3 must not be zero".toList)
    else
      let pieces := chunkPiecesAux f (cs - 1) (cube.getD band []).length 0 (cube.getD band [])
      Except.ok (pieces.map (fun p => FsEvent.writeChunk pout band p.1 p.2),
        (pieces.map Prod.snd).flatten)

/-- The band loop over a list of band indices, collecting the write events
and the per-band corrected contents; an error keeps the events already
emitted out of the result (they are re-attached by the caller). -/
def bandsLoopAux (pout : List Char) (wl : Option HVal) (cube : Cube) (cs : Nat) :
    List Nat → List FsEvent × Except PyErr Cube
  | [] => ([], Except.ok [])
  | b :: rest =>
    match bandStep pout wl cube cs b with
    | Except.error e => ([], Except.error e)
    | Except.ok (evs, content) =>
      match bandsLoopAux pout wl cube cs rest with
      | (evs2, r) => (evs ++ evs2, r.map (fun c => content :: c))

/-- The single-quote character, written via its code point. -/
def squote : Char := Char.ofNat 39

/-- Decimal representation of an integer. -/
def intToDec (n : Int) : List Char :=
  (if n < 0 then ['-'] else []) ++ natToDec n.natAbs

/-- Simplified model of Python `str(float)` (CPython prints the shortest
round-tripping decimal of the double; this model prints six decimal places).
It only feeds the scale-factor heuristic and the pass-through of non-text
metadata, neither of which influences the correction output. -/
def reprRat (q : ℚ) : List Char := fmt6 q

/-- `' '.join(xs)`. -/
def joinSpaces (xs : List (List Char)) : List Char := List.intercalate [' '] xs

/-- Model of Python `str` on a header value (used by the f-strings of the
output header writer). -/
def pyStrHVal : HVal → List Char
  | HVal.text s => s
  | HVal.int n => intToDec n
  | HVal.floatList xs =>
    '[' :: (List.intercalate [',', ' '] (xs.map reprRat) ++ [']'])
  | HVal.strList xs =>
    '[' :: (List.intercalate [',', ' '] (xs.map (fun s => squote :: (s ++ [squote]))) ++ [']'])

/-- Model of Python's substring test `pat in s`. -/
def containsSub (pat : List Char) : List Char → Bool
  | [] => pat.isEmpty
  | c :: rest => pat.isPrefixOf (c :: rest) || containsSub pat rest

/-- Lines 126–142 of the source applied to a description string: if the
lowered text contains `mw` and `*`, parse the text between the last `*` and
the following `]` as a float; otherwise, or on a parse failure, keep the
default scale `1000.0`. -/
def extractScale (d0 : List Char) : ℚ :=
  let d := d0.map Char.toLower
  if containsSub "mw".toList d ∧ '*' ∈ d then
    match pyFloat? (pyStrip ((pySplitChar ']' ((pySplitChar '*' d).getLastD [])).headD [])) with
    | some q => q
    | none => 1000
  else 1000

/-- Lines 120–142 of the source: the radiance scale factor from the
reference header's description, a string or a list joined with spaces;
any other shape (or absence) keeps the default `1000.0`. -/
def radianceScale (d : Option HVal) : ℚ :=
  match d with
  | some (HVal.text s) => extractScale s
  | some (HVal.strList xs) => extractScale (joinSpaces xs)
  | some (HVal.floatList xs) => extractScale (joinSpaces (xs.map reprRat))
  | _ => 1000

/-- `header[key]`: dictionary access that raises `KeyError` when absent. -/
def getK (m : HMap) (k : List Char) : Except PyErr HVal :=
  match pyGet m k with
  | some v => Except.ok v
  | none => Except.error (PyErr.keyError k)

/-- The message of the dimension-mismatch `ValueError` (line 99). -/
def dimMismatchMsg : List Char :=
  "Dimension mismatch between reflectance and radiance data".toList

/-- Lines 96–99 of the source: compare `samples`, `lines` and `bands` of the
two parsed headers with Python's short-circuit evaluation order, raising the
dimension-mismatch `ValueError` on the first disagreement.  Returns the three
agreed values (samples, lines, bands). -/
def checkedDims (reflH radH : HMap) : Except PyErr (HVal × HVal × HVal) :=
  match getK reflH "samples".toList with
  | Except.error e => Except.error e
  | Except.ok s1 =>
    match getK radH "samples".toList with
    | Except.error e => Except.error e
    | Except.ok s2 =>
      if s1 ≠ s2 then Except.error (PyErr.valueError dimMismatchMsg)
      else
        match getK reflH "lines".toList with
        | Except.error e => Except.error e
        | Except.ok l1 =>
          match getK radH "lines".toList with
          | Except.error e => Except.error e
          | Except.ok l2 =>
            if l1 ≠ l2 then Except.error (PyErr.valueError dimMismatchMsg)
            else
              match getK reflH "bands".toList with
              | Except.error e => Except.error e
              | Except.ok b1 =>
                match getK radH "bands".toList with
                | Except.error e => Except.error e
                | Except.ok b2 =>
                  if b1 ≠ b2 then Except.error (PyErr.valueError dimMismatchMsg)
                  else Except.ok (s1, l1, b1)

/-- Using a parsed header value as a `np.memmap` shape dimension: it must be
a nonnegative integer. -/
def asShapeNat : HVal → Except PyErr Nat
  | HVal.int n =>
    if 0 ≤ n then Except.ok n.toNat
    else Except.error (PyErr.valueError "negative dimensions are not allowed".toList)
  | _ => Except.error PyErr.typeError

/-- Lines 109–110 of the source: a truthy wavelength value has its length
printed, which raises `TypeError` when the value is an `int`. -/
def wlLenGuard : Option HVal → Except PyErr Unit
  | some (HVal.int n) => if n ≠ 0 then Except.error PyErr.typeError else Except.ok ()
  | _ => Except.ok ()

/-- Whether the cube on disk has exactly the shape the headers declare
(models the size check of `np.memmap(..., mode='r', shape=...)`). -/
def cubeShapeOk (cube : Cube) (nb nl ns : Nat) : Bool :=
  cube.length == nb &&
    cube.all (fun band => band.length == nl && band.all (fun r => r.length == ns))

def replReflAux : Nat → List Char → List Char
  | _, [] => []
  | 0, l => l
  | fuel + 1, c :: rest =>
    if "reflectance".toList.isPrefixOf (c :: rest) then
      "radcorr".toList ++ replReflAux fuel (rest.drop 10)
    else c :: replReflAux fuel rest

/-- Model of `path.replace('reflectance', 'radcorr')`: replace every
(left-to-right, non-overlapping) occurrence.  The fuel of the worker is
never exhausted starting from the length of the string. -/
def replRefl (l : List Char) : List Char := replReflAux l.length l

/-- Line 108 of the source: the wavelength table comes from the reference
(radiance) header map only. -/
def selectWavelength (radH : HMap) : Option HVal := pyGet radH "wavelength".toList

/-- Lines 182–207 of the source as run by the engine: write the output
header from the dimensions, the selected wavelength value and the reference
header's optional fields.  A truthy non-float-list wavelength makes the
6-decimal formatting raise. -/
def outputHeaderLines (ns nl nb : Nat) (wl : Option HVal) (radH : HMap) :
    Except PyErr (List (List Char)) :=
  let units := (pyGet radH "wavelength units".toList).map pyStrHVal
  let acq := (pyGet radH "acquisition date".toList).map pyStrHVal
  let sensor := (pyGet radH "sensor type".toList).map pyStrHVal
  match wl with
  | some v =>
    if truthy v then
      match v with
      | HVal.floatList ws => Except.ok (headerWriterLines ns nl nb ws units acq sensor)
      | HVal.int _ => Except.error PyErr.typeError
      | _ => Except.error (PyErr.valueError "Unknown format code".toList)
    else Except.ok (headerWriterLines ns nl nb [] units acq sensor)
  | none => Except.ok (headerWriterLines ns nl nb [] units acq sensor)

/-- Lines 112–207 of the source after the dimension and wavelength guards:
create the output cube, open the input cube read-only, run the band loop and
write the paired header, producing the event trace and the output contents. -/
def enginePost (pout pin : List Char) (wl : Option HVal) (radH : HMap) (cube : Cube)
    (cs nb nl ns : Nat) : List FsEvent × Except PyErr Cube :=
  if cubeShapeOk cube nb nl ns then
    match bandsLoopAux pout wl cube cs (List.range nb) with
    | (evs, Except.error e) =>
      (FsEvent.create pout :: FsEvent.openRead pin :: evs, Except.error e)
    | (evs, Except.ok content) =>
      match outputHeaderLines ns nl nb wl radH with
      | Except.error e =>
        (FsEvent.create pout :: FsEvent.openRead pin :: evs, Except.error e)
      | Except.ok hdr =>
        (FsEvent.create pout :: FsEvent.openRead pin ::
           (evs ++ [FsEvent.writeHeader (pout ++ ".hdr".toList) hdr]),
         Except.ok content)
  else ([FsEvent.create pout], Except.error (PyErr.valueError "mmap length is greater than file size".toList))

/-- The result of a successful run: the output path returned, the radiance
scale factor computed for observability, and the output cube contents. -/
structure EngineOk where
  outPath : List Char
  scale : ℚ
  outCube : Cube
  deriving DecidableEq

/-- `apply_enhanced_radiometric_correction` from the two parsed header maps
onward (lines 95–210): validate dimensions, guard the wavelength value,
derive the output path from the input data path, compute the scale factor,
and run the correction, producing the file-event trace and the result. -/
def runEngineFromMaps (reflH radH : HMap) (pin : List Char) (cube : Cube) (cs : Nat) :
    List FsEvent × Except PyErr EngineOk :=
  match checkedDims reflH radH with
  | Except.error e => ([], Except.error e)
  | Except.ok (sv, lv, bv) =>
    match asShapeNat bv with
    | Except.error e => ([], Except.error e)
    | Except.ok nb =>
      match asShapeNat lv with
      | Except.error e => ([], Except.error e)
      | Except.ok nl =>
        match asShapeNat sv with
        | Except.error e => ([], Except.error e)
        | Except.ok ns =>
          match wlLenGuard (selectWavelength radH) with
          | Except.error e => ([], Except.error e)
          | Except.ok _ =>
            let pout := replRefl pin
            let scale := radianceScale (pyGet radH "description".toList)
            match enginePost pout pin (selectWavelength radH) radH cube cs nb nl ns with
            | (evs, r) => (evs, r.map (fun c => ⟨pout, scale, c⟩))

/-- The whole of `apply_enhanced_radiometric_correction` (lines 75–210):
read and parse the two header files, then run the engine. -/
def apply_enhanced_radiometric_correction
    (reflHeaderLines radHeaderLines : List (List Char))
    (reflHeaderPath radHeaderPath reflDataPath : List Char)
    (cube : Cube) (cs : Nat) : List FsEvent × Except PyErr EngineOk :=
  match read_header reflHeaderLines with
  | Except.error e => ([FsEvent.openRead reflHeaderPath], Except.error e)
  | Except.ok m1 =>
    match read_header radHeaderLines with
    | Except.error e =>
      ([FsEvent.openRead reflHeaderPath, FsEvent.openRead radHeaderPath], Except.error e)
    | Except.ok m2 =>
      match runEngineFromMaps m1 m2 reflDataPath cube cs with
      | (evs, r) =>
        (FsEvent.openRead reflHeaderPath :: FsEvent.openRead radHeaderPath :: evs, r)

/-- One optional pass-through entry of the parsed output header map. -/
def optEntry (k : List Char) : Option (List Char) → HMap
  | some v => [(k, HVal.text v)]
  | none => []

/-- The wavelength entry of the parsed output header map: present exactly
when the written table is nonempty. -/
def wlEntry (ws : List ℚ) : HMap :=
  if ws = [] then [] else [("wavelength".toList, HVal.floatList ws)]

/-- The entries contributed by the ten fixed lines of the output header
writer (lines 183–192 of the source), most recent binding first. -/
def fixedEntries (nsamples nlines nbands : Nat) : HMap :=
  [("byte order".toList, HVal.text ['0']),
   ("interleave".toList, HVal.text "bsq".toList),
   ("data type".toList, HVal.int 4),
   ("file type".toList, HVal.text "ENVI Standard".toList),
   ("header offset".toList, HVal.text ['0']),
   ("bands".toList, HVal.int (nbands : Int)),
   ("lines".toList, HVal.int (nlines : Int)),
   ("samples".toList, HVal.int (nsamples : Int)),
   ("description".toList,
     HVal.text "Radiometrically corrected reflectance data".toList)]

/-- The full header map obtained by re-parsing the writer's output for a
model. -/
def finalMap (m : HeaderModel) : HMap :=
  optEntry "sensor type".toList m.sensorType ++
    (optEntry "acquisition date".toList m.acquisitionDate ++
      (optEntry "wavelength units".toList m.wavelengthUnits ++
        (wlEntry (m.wavelength.getD []) ++
          fixedEntries m.samples m.lines m.bands)))

/-- A pass-through text value that survives the round trip unchanged:
already stripped, and free of an opening brace (which would start a list on
re-parse). -/
def textFieldOk : Option (List Char) → Bool
  | none => true
  | some v => decide (pyStrip v = v) && decide (lbrace ∉ v)

/-- Well-formedness of a `HeaderModel` for the round-trip property,
restricted to what the writer's fixed-point format preserves: a declared
wavelength table is nonempty (a Python-falsy empty table is never written)
with every value exactly representable in six decimal places, and each
optional text field is stripped and brace-free. -/
def WellFormedModel (m : HeaderModel) : Bool :=
  (match m.wavelength with
   | none => true
   | some ws => (!ws.isEmpty) && ws.all (fun w => (w * 1000000).den == 1)) &&
  textFieldOk m.wavelengthUnits &&
  textFieldOk m.acquisitionDate &&
  textFieldOk m.sensorType

theorem chunkPiecesAux_flatten (f : ℚ) (k : Nat) :
    ∀ (n s : Nat) (rows : List (List ℚ)), rows.length ≤ n →
      ((chunkPiecesAux f k n s rows).map Prod.snd).flatten = rows.map (correctRow f) := by
  intro n
  induction n with
  | zero =>
    intro s rows h
    have : rows = [] := List.length_eq_zero.mp (Nat.le_zero.mp h)
    subst this
    rfl
  | succ n ih =>
    intro s rows h
    cases rows with
    | nil => rfl
    | cons r rest =>
      simp only [chunkPiecesAux, List.map_cons, List.flatten_cons]
      rw [ih (s + (k + 1)) ((r :: rest).drop (k + 1)) (by simp at h ⊢; omega)]
      rw [← List.map_append, List.take_append_drop]
      exact List.map_cons _ _ _

theorem bandStep_sndEq (pout : List Char) (wl : Option HVal) (cube : Cube)
    (cs cs2 b : Nat) (h : cs ≠ 0) (h2 : cs2 ≠ 0) :
    Except.map Prod.snd (bandStep pout wl cube cs b) =
      Except.map Prod.snd (bandStep pout wl cube cs2 b) := by
  unfold bandStep
  cases bandFactor wl b with
  | error e => rfl
  | ok f =>
    simp only [if_neg h, if_neg h2, Except.map]
    rw [chunkPiecesAux_flatten f (cs - 1) (cube.getD b []).length 0 (cube.getD b []) le_rfl,
      chunkPiecesAux_flatten f (cs2 - 1) (cube.getD b []).length 0 (cube.getD b []) le_rfl]

theorem bandsLoopAux_sndEq (pout : List Char) (wl : Option HVal) (cube : Cube)
    (cs cs2 : Nat) (h : cs ≠ 0) (h2 : cs2 ≠ 0) (bands : List Nat) :
    (bandsLoopAux pout wl cube cs bands).2 = (bandsLoopAux pout wl cube cs2 bands).2 := by
  induction bands with
  | nil => rfl
  | cons b rest ih =>
    have hb := bandStep_sndEq pout wl cube cs cs2 b h h2
    simp only [bandsLoopAux]
    cases hc : bandStep pout wl cube cs b with
    | error e =>
      cases hc2 : bandStep pout wl cube cs2 b with
      | error e2 =>
        rw [hc, hc2] at hb
        simp only [Except.map] at hb
        cases hb
        rfl
      | ok p2 =>
        rw [hc, hc2] at hb
        simp [Except.map] at hb
    | ok p =>
      cases hc2 : bandStep pout wl cube cs2 b with
      | error e2 =>
        rw [hc, hc2] at hb
        simp [Except.map] at hb
      | ok p2 =>
        rw [hc, hc2] at hb
        simp only [Except.map, Except.ok.injEq] at hb
        cases hp : bandsLoopAux pout wl cube cs rest with
        | mk evsA rA =>
          cases hp2 : bandsLoopAux pout wl cube cs2 rest with
          | mk evsB rB =>
            have : rA = rB := by
              have := ih
              rw [hp, hp2] at this
              exact this
            subst this
            simp [hb]

theorem enginePost_sndEq (pout pin : List Char) (wl : Option HVal) (radH : HMap)
    (cube : Cube) (cs cs2 nb nl ns : Nat) (h : cs ≠ 0) (h2 : cs2 ≠ 0) :
    (enginePost pout pin wl radH cube cs nb nl ns).2 =
      (enginePost pout pin wl radH cube cs2 nb nl ns).2 := by
  unfold enginePost
  by_cases hs : cubeShapeOk cube nb nl ns
  · simp only [if_pos hs]
    have hb := bandsLoopAux_sndEq pout wl cube cs cs2 h h2 (List.range nb)
    cases hc : bandsLoopAux pout wl cube cs (List.range nb) with
    | mk evsA rA =>
      cases hc2 : bandsLoopAux pout wl cube cs2 (List.range nb) with
      | mk evsB rB =>
        rw [hc, hc2] at hb
        simp only at hb
        subst hb
        cases rA with
        | error e => rfl
        | ok content =>
          cases outputHeaderLines ns nl nb wl radH with
          | error e => rfl
          | ok hdr => rfl
  · simp only [if_neg hs]

theorem runEngineFromMaps_sndEq (reflH radH : HMap) (pin : List Char) (cube : Cube)
    (cs cs2 : Nat) (h : cs ≠ 0) (h2 : cs2 ≠ 0) :
    (runEngineFromMaps reflH radH pin cube cs).2 =
      (runEngineFromMaps reflH radH pin cube cs2).2 := by
  unfold runEngineFromMaps
  cases checkedDims reflH radH with
  | error e => rfl
  | ok dims =>
    cases dims with
    | mk sv rest =>
      cases rest with
      | mk lv bv =>
        dsimp only
        cases asShapeNat bv with
        | error e => rfl
        | ok nb =>
          cases asShapeNat lv with
          | error e => rfl
          | ok nl =>
            cases asShapeNat sv with
            | error e => rfl
            | ok ns =>
              cases wlLenGuard (selectWavelength radH) with
              | error e => rfl
              | ok u =>
                dsimp only
                have hp := enginePost_sndEq (replRefl pin) pin (selectWavelength radH)
                  radH cube cs cs2 nb nl ns h h2
                cases hc : enginePost (replRefl pin) pin (selectWavelength radH) radH cube cs nb nl ns with
                | mk evsA rA =>
                  cases hc2 : enginePost (replRefl pin) pin (selectWavelength radH) radH cube cs2 nb nl ns with
                  | mk evsB rB =>
                    rw [hc, hc2] at hp
                    simp only at hp
                    subst hp
                    rfl

/-- C1: the per-band correction factor used by the engine is
`1 + (wavelength[b] - 500)/1000` whenever the wavelength table is present
and `b` is within its length, and `1.0` otherwise (table absent, or `b` at
or beyond its length); at `wavelength[b] = 500` the factor is exactly `1.0`
and at `wavelength[b] = 1500` it is exactly `2.0`. -/
theorem c1_band_factor_formula (ws : List ℚ) (b : Nat) :
    (b < ws.length →
      bandFactor (some (HVal.floatList ws)) b = Except.ok (1 + (ws.getD b 0 - 500) / 1000)) ∧
    (ws.length ≤ b → bandFactor (some (HVal.floatList ws)) b = Except.ok 1) ∧
    bandFactor none b = Except.ok 1 ∧
    (b < ws.length → ws.getD b 0 = 500 →
      bandFactor (some (HVal.floatList ws)) b = Except.ok 1) ∧
    (b < ws.length → ws.getD b 0 = 1500 →
      bandFactor (some (HVal.floatList ws)) b = Except.ok 2) := by
  have hne : ∀ (hb : b < ws.length), ws ≠ [] := by
    intro hb hnil
    rw [hnil] at hb
    simp at hb
  have htruthy : ws ≠ [] → truthy (HVal.floatList ws) = true := by
    intro hne2
    simp [truthy, hne2]
  refine ⟨?_, ?_, rfl, ?_, ?_⟩
  · intro hb
    simp [bandFactor, htruthy (hne hb), hb]
  · intro hb
    by_cases hnil : ws = []
    · subst hnil
      simp [bandFactor, truthy]
    · simp [bandFactor, htruthy hnil, Nat.not_lt.mpr hb]
  · intro hb hw
    rw [List.getD_eq_getElem _ _ hb] at hw
    simp [bandFactor, htruthy (hne hb), hb, hw]
  · intro hb hw
    rw [List.getD_eq_getElem _ _ hb] at hw
    simp [bandFactor, htruthy (hne hb), hb, hw]
    norm_num

/-- Witness for C1 at a concrete table: with `wavelength = [500, 1500]` the
factor is `1.0` at band 0 and `2.0` at band 1, and `1.0` at band 2 (past the
table) and with no table. -/
theorem c1_band_factor_formula_witness :
    bandFactor (some (HVal.floatList [500, 1500])) 0 = Except.ok 1 ∧
    bandFactor (some (HVal.floatList [500, 1500])) 1 = Except.ok 2 ∧
    bandFactor (some (HVal.floatList [500, 1500])) 2 = Except.ok 1 ∧
    bandFactor none 2 = Except.ok 1 :=
  ⟨(c1_band_factor_formula [500, 1500] 0).2.2.2.1 (by norm_num) (by norm_num),
   (c1_band_factor_formula [500, 1500] 1).2.2.2.2 (by norm_num) (by norm_num),
   (c1_band_factor_formula [500, 1500] 2).2.1 (by norm_num),
   (c1_band_factor_formula [500, 1500] 2).2.2.1⟩

theorem correctValue_nonneg (f x : ℚ) : 0 ≤ correctValue f x := by
  unfold correctValue
  split
  · exact le_rfl
  split
  · exact zero_le_one
  · linarith [not_lt.mp (by assumption : ¬x * f < 0)]

theorem correctValue_le_one (f x : ℚ) : correctValue f x ≤ 1 := by
  unfold correctValue
  split
  · exact zero_le_one
  split
  · exact le_rfl
  · linarith [not_lt.mp (by assumption : ¬1 < x * f)]

theorem chunkPiecesAux_rows_bounded (f : ℚ) (k : Nat) :
    ∀ (n s : Nat) (rows : List (List ℚ)) (p : Nat × List (List ℚ)), rows.length ≤ n →
      p ∈ chunkPiecesAux f k n s rows → ∀ row ∈ p.2, ∀ v ∈ row, 0 ≤ v ∧ v ≤ 1 := by
  intro n
  induction n with
  | zero =>
    intro s rows p h hp
    have : rows = [] := List.length_eq_zero.mp (Nat.le_zero.mp h)
    subst this
    simp [chunkPiecesAux] at hp
  | succ n ih =>
    intro s rows p h hp
    cases rows with
    | nil =>
      simp [chunkPiecesAux] at hp
    | cons r rest =>
      simp only [chunkPiecesAux] at hp
      rcases List.mem_cons.mp hp with hhead | htail
      · subst hhead
        intro row hrow v hv
        simp only [List.mem_map] at hrow
        obtain ⟨r0, _, hr0⟩ := hrow
        subst hr0
        simp only [correctRow, List.mem_map] at hv
        obtain ⟨x, _, hx⟩ := hv
        subst hx
        exact ⟨correctValue_nonneg f x, correctValue_le_one f x⟩
      · exact ih (s + (k + 1)) ((r :: rest).drop (k + 1)) p (by simp at h ⊢; omega) htail

theorem bandsLoopAux_writeChunk_bounded (pout : List Char) (wl : Option HVal)
    (cube : Cube) (cs : Nat) (bands : List Nat) (p : List Char) (b s : Nat)
    (data : List (List ℚ)) :
    FsEvent.writeChunk p b s data ∈ (bandsLoopAux pout wl cube cs bands).1 →
    ∀ row ∈ data, ∀ v ∈ row, 0 ≤ v ∧ v ≤ 1 := by
  induction bands with
  | nil =>
    intro hmem
    simp [bandsLoopAux] at hmem
  | cons b0 rest ih =>
    simp only [bandsLoopAux]
    cases hstep : bandStep pout wl cube cs b0 with
    | error e =>
      intro hmem
      exact absurd hmem (by dsimp only; exact List.not_mem_nil _)
    | ok pr =>
      obtain ⟨evs1, content⟩ := pr
      cases hrec : bandsLoopAux pout wl cube cs rest with
      | mk evs2 r2 =>
        dsimp only
        intro hmem
        rcases List.mem_append.mp hmem with hleft | hright
        · unfold bandStep at hstep
          cases hf : bandFactor wl b0 with
          | error e =>
            rw [hf] at hstep
            dsimp only at hstep
            exact absurd hstep (by simp)
          | ok f =>
            rw [hf] at hstep
            dsimp only at hstep
            by_cases hcs : cs = 0
            · rw [if_pos hcs] at hstep
              exact absurd hstep (by simp)
            · rw [if_neg hcs] at hstep
              simp only [Except.ok.injEq, Prod.mk.injEq] at hstep
              obtain ⟨hevs, -⟩ := hstep
              rw [← hevs] at hleft
              simp only [List.mem_map] at hleft
              obtain ⟨piece, hpiece, heq⟩ := hleft
              simp only [FsEvent.writeChunk.injEq] at heq
              obtain ⟨-, -, -, hdata⟩ := heq
              subst hdata
              exact chunkPiecesAux_rows_bounded f (cs - 1) (cube.getD b0 []).length 0
                (cube.getD b0 []) piece le_rfl hpiece
        · have := ih
          rw [hrec] at this
          exact this hright

theorem enginePost_writeChunk_bounded (pout pin : List Char) (wl : Option HVal)
    (radH : HMap) (cube : Cube) (cs nb nl ns : Nat) (p : List Char) (b s : Nat)
    (data : List (List ℚ)) :
    FsEvent.writeChunk p b s data ∈ (enginePost pout pin wl radH cube cs nb nl ns).1 →
    ∀ row ∈ data, ∀ v ∈ row, 0 ≤ v ∧ v ≤ 1 := by
  unfold enginePost
  by_cases hs : cubeShapeOk cube nb nl ns
  · rw [if_pos hs]
    cases hc : bandsLoopAux pout wl cube cs (List.range nb) with
    | mk evs r =>
      have hbands := bandsLoopAux_writeChunk_bounded pout wl cube cs (List.range nb) p b s data
      rw [hc] at hbands
      cases r with
      | error e =>
        dsimp only
        intro hmem
        rcases List.mem_cons.mp hmem with h1 | hmem2
        · cases h1
        rcases List.mem_cons.mp hmem2 with h2 | h3
        · cases h2
        exact hbands h3
      | ok content =>
        cases outputHeaderLines ns nl nb wl radH with
        | error e =>
          dsimp only
          intro hmem
          rcases List.mem_cons.mp hmem with h1 | hmem2
          · cases h1
          rcases List.mem_cons.mp hmem2 with h2 | h3
          · cases h2
          exact hbands h3
        | ok hdr =>
          dsimp only
          intro hmem
          rcases List.mem_cons.mp hmem with h1 | hmem2
          · cases h1
          rcases List.mem_cons.mp hmem2 with h2 | hmem3
          · cases h2
          rcases List.mem_append.mp hmem3 with h3 | h4
          · exact hbands h3
          · simp at h4
  · rw [if_neg hs]
    intro hmem
    simp at hmem

theorem runEngineFromMaps_writeChunk_bounded (reflH radH : HMap) (pin : List Char)
    (cube : Cube) (cs : Nat) (p : List Char) (b s : Nat) (data : List (List ℚ)) :
    FsEvent.writeChunk p b s data ∈ (runEngineFromMaps reflH radH pin cube cs).1 →
    ∀ row ∈ data, ∀ v ∈ row, 0 ≤ v ∧ v ≤ 1 := by
  unfold runEngineFromMaps
  cases checkedDims reflH radH with
  | error e =>
    intro hmem
    simp at hmem
  | ok dims =>
    cases dims with
    | mk sv rest =>
      cases rest with
      | mk lv bv =>
        dsimp only
        cases asShapeNat bv with
        | error e =>
          intro hmem
          simp at hmem
        | ok nb =>
          cases asShapeNat lv with
          | error e =>
            intro hmem
            simp at hmem
          | ok nl =>
            cases asShapeNat sv with
            | error e =>
              intro hmem
              simp at hmem
            | ok ns =>
              cases wlLenGuard (selectWavelength radH) with
              | error e =>
                intro hmem
                simp at hmem
              | ok u =>
                dsimp only
                cases hc : enginePost (replRefl pin) pin (selectWavelength radH) radH cube cs nb nl ns with
                | mk evs r =>
                  dsimp only
                  intro hmem
                  have := enginePost_writeChunk_bounded (replRefl pin) pin
                    (selectWavelength radH) radH cube cs nb nl ns p b s data
                  rw [hc] at this
                  exact this hmem

/-- C2: every value written to the output cube lies in `[0, 1]`: each element
is multiplied by its band's factor and clipped to `[0, 1]`, including products
above 1 (clipped to 1) and below 0 (clipped to 0); and every element of every
chunk written by any engine run is in `[0, 1]`. -/
theorem c2_output_in_unit_interval :
    (∀ f x : ℚ, 0 ≤ correctValue f x ∧ correctValue f x ≤ 1) ∧
    (∀ f x : ℚ, 1 < x * f → correctValue f x = 1) ∧
    (∀ f x : ℚ, x * f < 0 → correctValue f x = 0) ∧
    (∀ (reflH radH : HMap) (pin : List Char) (cube : Cube) (cs : Nat)
      (p : List Char) (b s : Nat) (data : List (List ℚ)),
      FsEvent.writeChunk p b s data ∈ (runEngineFromMaps reflH radH pin cube cs).1 →
      ∀ row ∈ data, ∀ v ∈ row, 0 ≤ v ∧ v ≤ 1) := by
  refine ⟨fun f x => ⟨correctValue_nonneg f x, correctValue_le_one f x⟩, ?_, ?_,
    runEngineFromMaps_writeChunk_bounded⟩
  · intro f x h
    unfold correctValue
    rw [if_neg (by linarith), if_pos h]
  · intro f x h
    unfold correctValue
    rw [if_pos h]

/-- Witness for C2: a product above 1 is clipped to exactly 1, one below 0 to
exactly 0, and the bounds hold at a sample point. -/
theorem c2_output_in_unit_interval_witness :
    correctValue 3 (1/2) = 1 ∧ correctValue 3 (-1/2) = 0 ∧
    (0 ≤ correctValue (1/2) (1/2) ∧ correctValue (1/2) (1/2) ≤ 1) :=
  ⟨c2_output_in_unit_interval.2.1 3 (1/2) (by norm_num),
   c2_output_in_unit_interval.2.2.1 3 (-1/2) (by norm_num),
   c2_output_in_unit_interval.1 (1/2) (1/2)⟩

/-- C3: for every input and every `chunkSize ≥ 1`, the engine's result (in
particular the output cube it writes) is identical to the result with any
other valid chunk size — hence with any `chunkSize ≥ lines`, a single chunk
per band; moreover the chunk decomposition of a band covers exactly its rows
(the last chunk is clipped to the remaining rows). -/
theorem c3_chunked_equals_single_chunk (reflH radH : HMap) (pin : List Char)
    (cube : Cube) (cs csBig : Nat) (h : 1 ≤ cs) (h2 : 1 ≤ csBig) :
    (runEngineFromMaps reflH radH pin cube cs).2 =
      (runEngineFromMaps reflH radH pin cube csBig).2 ∧
    (∀ (f : ℚ) (rows : List (List ℚ)),
      ((chunkPiecesAux f (cs - 1) rows.length 0 rows).map Prod.snd).flatten =
        rows.map (correctRow f)) :=
  ⟨runEngineFromMaps_sndEq reflH radH pin cube cs csBig (by omega) (by omega),
   fun f rows => chunkPiecesAux_flatten f (cs - 1) rows.length 0 rows le_rfl⟩

/-- Witness for C3: on a concrete 1-band, 3-line cube, chunk size 2 and chunk
size 500 (≥ lines) give identical results, and the chunk decomposition with
height 2 covers the three rows exactly. -/
theorem c3_chunked_equals_single_chunk_witness :
    (runEngineFromMaps
        [("samples".toList, HVal.int 1), ("lines".toList, HVal.int 3), ("bands".toList, HVal.int 1)]
        [("samples".toList, HVal.int 1), ("lines".toList, HVal.int 3), ("bands".toList, HVal.int 1)]
        "a_reflectance.dat".toList [[[1/2], [1/4], [3/4]]] 2).2 =
      (runEngineFromMaps
        [("samples".toList, HVal.int 1), ("lines".toList, HVal.int 3), ("bands".toList, HVal.int 1)]
        [("samples".toList, HVal.int 1), ("lines".toList, HVal.int 3), ("bands".toList, HVal.int 1)]
        "a_reflectance.dat".toList [[[1/2], [1/4], [3/4]]] 500).2 ∧
    ((chunkPiecesAux 1 1 3 0 [[(1 : ℚ)/2], [1/4], [3/4]]).map Prod.snd).flatten =
      [[(1 : ℚ)/2], [1/4], [3/4]].map (correctRow 1) :=
  ⟨(c3_chunked_equals_single_chunk _ _ _ _ 2 500 (by norm_num) (by norm_num)).1,
   (c3_chunked_equals_single_chunk
      [("samples".toList, HVal.int 1), ("lines".toList, HVal.int 3), ("bands".toList, HVal.int 1)]
      [("samples".toList, HVal.int 1), ("lines".toList, HVal.int 3), ("bands".toList, HVal.int 1)]
      "a_reflectance.dat".toList [[[1/2], [1/4], [3/4]]] 2 500 (by norm_num) (by norm_num)).2
     1 [[(1 : ℚ)/2], [1/4], [3/4]]⟩

theorem checkedDims_mismatch (reflH radH : HMap) (vs1 vs2 vl1 vl2 vb1 vb2 : HVal)
    (h1 : pyGet reflH "samples".toList = some vs1)
    (h2 : pyGet radH "samples".toList = some vs2)
    (h3 : pyGet reflH "lines".toList = some vl1)
    (h4 : pyGet radH "lines".toList = some vl2)
    (h5 : pyGet reflH "bands".toList = some vb1)
    (h6 : pyGet radH "bands".toList = some vb2)
    (hne : vs1 ≠ vs2 ∨ vl1 ≠ vl2 ∨ vb1 ≠ vb2) :
    checkedDims reflH radH = Except.error (PyErr.valueError dimMismatchMsg) := by
  unfold checkedDims getK
  rw [h1, h2, h3, h4, h5, h6]
  dsimp only
  by_cases hs : vs1 = vs2
  · rw [if_neg (by simp [hs])]
    by_cases hl : vl1 = vl2
    · rw [if_neg (by simp [hl])]
      by_cases hb : vb1 = vb2
      · exact absurd hne (by simp [hs, hl, hb])
      · rw [if_pos hb]
    · rw [if_pos hl]
  · rw [if_pos hs]

/-- C4: when the two parsed headers disagree on `samples`, `lines` or
`bands`, the run fails with the dimension-mismatch `ValueError` and its
file-event trace is empty — no output data file or header file is created or
written. -/
theorem c4_dimension_mismatch_no_output (reflH radH : HMap) (pin : List Char)
    (cube : Cube) (cs : Nat) (vs1 vs2 vl1 vl2 vb1 vb2 : HVal)
    (h1 : pyGet reflH "samples".toList = some vs1)
    (h2 : pyGet radH "samples".toList = some vs2)
    (h3 : pyGet reflH "lines".toList = some vl1)
    (h4 : pyGet radH "lines".toList = some vl2)
    (h5 : pyGet reflH "bands".toList = some vb1)
    (h6 : pyGet radH "bands".toList = some vb2)
    (hne : vs1 ≠ vs2 ∨ vl1 ≠ vl2 ∨ vb1 ≠ vb2) :
    runEngineFromMaps reflH radH pin cube cs =
      ([], Except.error (PyErr.valueError dimMismatchMsg)) := by
  unfold runEngineFromMaps
  rw [checkedDims_mismatch reflH radH vs1 vs2 vl1 vl2 vb1 vb2 h1 h2 h3 h4 h5 h6 hne]

/-- Witness for C4: two concrete headers that agree on `lines` and `bands`
but disagree on `samples` produce the dimension-mismatch error and an empty
event trace. -/
theorem c4_dimension_mismatch_no_output_witness :
    runEngineFromMaps
      [("samples".toList, HVal.int 3), ("lines".toList, HVal.int 4), ("bands".toList, HVal.int 2)]
      [("samples".toList, HVal.int 5), ("lines".toList, HVal.int 4), ("bands".toList, HVal.int 2)]
      "a_reflectance.dat".toList [] 500 =
      ([], Except.error (PyErr.valueError dimMismatchMsg)) :=
  c4_dimension_mismatch_no_output _ _ _ _ _ (HVal.int 3) (HVal.int 5) (HVal.int 4)
    (HVal.int 4) (HVal.int 2) (HVal.int 2) (by decide) (by decide) (by decide) (by decide)
    (by decide) (by decide) (Or.inl (by decide))

theorem pyGet_cons_ne (k1 k : List Char) (v : HVal) (m : HMap) (h : k1 ≠ k) :
    pyGet ((k1, v) :: m) k = pyGet m k := by
  simp [pyGet, h]

theorem checkedDims_cons_wl (reflH radH : HMap) (v : HVal) :
    checkedDims (("wavelength".toList, v) :: reflH) radH = checkedDims reflH radH := by
  unfold checkedDims getK
  rw [pyGet_cons_ne _ _ _ _ (by decide), pyGet_cons_ne _ _ _ _ (by decide),
    pyGet_cons_ne _ _ _ _ (by decide)]

set_option maxRecDepth 10000 in
/-- C8 counterexample: with the reflectance header declaring
`wavelength = [1500]` and the radiance header declaring none, exactly one map
declares a wavelength table, yet the engine's wavelength selection (which
reads only the radiance map) yields none, and the run leaves the all-`1/2`
band unscaled instead of clipping it to 1 as factor 2 would. -/
theorem c8_counterexample :
    pyGet [("samples".toList, HVal.int 1), ("lines".toList, HVal.int 1),
      ("bands".toList, HVal.int 1), ("wavelength".toList, HVal.floatList [1500])]
      "wavelength".toList = some (HVal.floatList [1500]) ∧
    pyGet [("samples".toList, HVal.int 1), ("lines".toList, HVal.int 1),
      ("bands".toList, HVal.int 1)] "wavelength".toList = none ∧
    selectWavelength [("samples".toList, HVal.int 1), ("lines".toList, HVal.int 1),
      ("bands".toList, HVal.int 1)] = none ∧
    Except.map EngineOk.outCube
      (runEngineFromMaps
        [("samples".toList, HVal.int 1), ("lines".toList, HVal.int 1),
          ("bands".toList, HVal.int 1), ("wavelength".toList, HVal.floatList [1500])]
        [("samples".toList, HVal.int 1), ("lines".toList, HVal.int 1),
          ("bands".toList, HVal.int 1)]
        "a_reflectance.dat".toList [[[1/2]]] 500).2 = Except.ok [[[1/2]]] ∧
    ([[[(1 : ℚ)/2]]] : Cube) ≠ [[[1]]] := by
  with_unfolding_all decide

/-- C8 amended: the wavelength table is taken from the radiance (reference)
header only — the engine's selection is exactly the radiance map's
`wavelength` entry, and a `wavelength` entry assigned in the reflectance
header has no effect whatsoever on the run. -/
theorem c8_wavelength_from_radiance_only (reflH radH : HMap) (v : HVal)
    (pin : List Char) (cube : Cube) (cs : Nat) :
    runEngineFromMaps (("wavelength".toList, v) :: reflH) radH pin cube cs =
      runEngineFromMaps reflH radH pin cube cs ∧
    selectWavelength radH = pyGet radH "wavelength".toList := by
  constructor
  · unfold runEngineFromMaps
    rw [checkedDims_cons_wl reflH radH v]
  · rfl

theorem checkedDims_radEq (reflH radH radH2 : HMap)
    (h : ∀ k : List Char, k ≠ "description".toList → pyGet radH k = pyGet radH2 k) :
    checkedDims reflH radH = checkedDims reflH radH2 := by
  unfold checkedDims getK
  rw [h "samples".toList (by decide), h "lines".toList (by decide),
    h "bands".toList (by decide)]

theorem outputHeaderLines_radEq (ns nl nb : Nat) (wl : Option HVal) (radH radH2 : HMap)
    (h : ∀ k : List Char, k ≠ "description".toList → pyGet radH k = pyGet radH2 k) :
    outputHeaderLines ns nl nb wl radH = outputHeaderLines ns nl nb wl radH2 := by
  unfold outputHeaderLines
  rw [h "wavelength units".toList (by decide), h "acquisition date".toList (by decide),
    h "sensor type".toList (by decide)]

theorem enginePost_radEq (pout pin : List Char) (wl : Option HVal) (radH radH2 : HMap)
    (cube : Cube) (cs nb nl ns : Nat)
    (h : ∀ k : List Char, k ≠ "description".toList → pyGet radH k = pyGet radH2 k) :
    enginePost pout pin wl radH cube cs nb nl ns =
      enginePost pout pin wl radH2 cube cs nb nl ns := by
  unfold enginePost
  rw [outputHeaderLines_radEq ns nl nb wl radH radH2 h]

/-- C10: runs whose reference (radiance) header maps agree on every key
other than `description` produce identical file-event traces — in particular
identical bytes written to the output cube and header.  The scale factor
derived from the description is computed but does not influence any write. -/
theorem c10_description_does_not_affect_output (reflH radH radH2 : HMap)
    (pin : List Char) (cube : Cube) (cs : Nat)
    (h : ∀ k : List Char, k ≠ "description".toList → pyGet radH k = pyGet radH2 k) :
    (runEngineFromMaps reflH radH pin cube cs).1 =
      (runEngineFromMaps reflH radH2 pin cube cs).1 := by
  unfold runEngineFromMaps
  rw [checkedDims_radEq reflH radH radH2 h]
  have hw : selectWavelength radH = selectWavelength radH2 :=
    h "wavelength".toList (by decide)
  rw [hw]
  cases checkedDims reflH radH2 with
  | error e => rfl
  | ok dims =>
    cases dims with
    | mk sv rest =>
      cases rest with
      | mk lv bv =>
        dsimp only
        cases asShapeNat bv with
        | error e => rfl
        | ok nb =>
          cases asShapeNat lv with
          | error e => rfl
          | ok nl =>
            cases asShapeNat sv with
            | error e => rfl
            | ok ns =>
              cases wlLenGuard (selectWavelength radH2) with
              | error e => rfl
              | ok u =>
                dsimp only
                rw [enginePost_radEq (replRefl pin) pin (selectWavelength radH2)
                  radH radH2 cube cs nb nl ns h]

/-- Witness for C10: two concrete radiance maps that differ only in their
`description` value (scale `* 100.0]` vs none parsable) yield identical
traces. -/
theorem c10_description_does_not_affect_output_witness :
    (runEngineFromMaps
        [("samples".toList, HVal.int 1), ("lines".toList, HVal.int 1), ("bands".toList, HVal.int 1)]
        [("description".toList, HVal.text "data in [mw * 100.0]".toList),
          ("samples".toList, HVal.int 1), ("lines".toList, HVal.int 1), ("bands".toList, HVal.int 1)]
        "a_reflectance.dat".toList [[[1/2]]] 500).1 =
      (runEngineFromMaps
        [("samples".toList, HVal.int 1), ("lines".toList, HVal.int 1), ("bands".toList, HVal.int 1)]
        [("description".toList, HVal.text "no pattern".toList),
          ("samples".toList, HVal.int 1), ("lines".toList, HVal.int 1), ("bands".toList, HVal.int 1)]
        "a_reflectance.dat".toList [[[1/2]]] 500).1 :=
  c10_description_does_not_affect_output _ _ _ _ _ _ (by
    intro k hk
    have h1 : "description".toList ≠ k := fun hcontra => hk hcontra.symm
    simp only [pyGet, if_neg h1])

theorem bandStep_paths (pout : List Char) (wl : Option HVal) (cube : Cube)
    (cs b : Nat) (evs : List FsEvent) (content : List (List ℚ))
    (hstep : bandStep pout wl cube cs b = Except.ok (evs, content)) :
    ∀ e ∈ evs, e.path = pout := by
  unfold bandStep at hstep
  cases hf : bandFactor wl b with
  | error e =>
    rw [hf] at hstep
    dsimp only at hstep
    exact absurd hstep (by simp)
  | ok f =>
    rw [hf] at hstep
    dsimp only at hstep
    by_cases hcs : cs = 0
    · rw [if_pos hcs] at hstep
      exact absurd hstep (by simp)
    · rw [if_neg hcs] at hstep
      simp only [Except.ok.injEq, Prod.mk.injEq] at hstep
      obtain ⟨hevs, -⟩ := hstep
      intro e he
      rw [← hevs] at he
      simp only [List.mem_map] at he
      obtain ⟨piece, -, hpe⟩ := he
      rw [← hpe]
      rfl

theorem bandsLoopAux_paths (pout : List Char) (wl : Option HVal) (cube : Cube)
    (cs : Nat) (bands : List Nat) :
    ∀ e ∈ (bandsLoopAux pout wl cube cs bands).1, e.path = pout := by
  induction bands with
  | nil =>
    intro e he
    simp [bandsLoopAux] at he
  | cons b0 rest ih =>
    simp only [bandsLoopAux]
    cases hstep : bandStep pout wl cube cs b0 with
    | error e0 =>
      intro e he
      exact absurd he (by dsimp only; exact List.not_mem_nil _)
    | ok pr =>
      obtain ⟨evs1, content⟩ := pr
      cases hrec : bandsLoopAux pout wl cube cs rest with
      | mk evs2 r2 =>
        dsimp only
        intro e he
        rcases List.mem_append.mp he with hleft | hright
        · exact bandStep_paths pout wl cube cs b0 evs1 content hstep e hleft
        · have := ih e
          rw [hrec] at this
          exact this hright

theorem enginePost_write_paths (pout pin : List Char) (wl : Option HVal) (radH : HMap)
    (cube : Cube) (cs nb nl ns : Nat) :
    ∀ e ∈ (enginePost pout pin wl radH cube cs nb nl ns).1, e.isWrite = true →
      e.path = pout ∨ e.path = pout ++ ".hdr".toList := by
  unfold enginePost
  by_cases hs : cubeShapeOk cube nb nl ns
  · rw [if_pos hs]
    cases hc : bandsLoopAux pout wl cube cs (List.range nb) with
    | mk evs r =>
      have hbands := bandsLoopAux_paths pout wl cube cs (List.range nb)
      rw [hc] at hbands
      cases r with
      | error e0 =>
        dsimp only
        intro e he hw
        rcases List.mem_cons.mp he with h1 | he2
        · subst h1
          exact Or.inl rfl
        rcases List.mem_cons.mp he2 with h2 | h3
        · subst h2
          simp [FsEvent.isWrite] at hw
        · exact Or.inl (hbands e h3)
      | ok content =>
        cases outputHeaderLines ns nl nb wl radH with
        | error e0 =>
          dsimp only
          intro e he hw
          rcases List.mem_cons.mp he with h1 | he2
          · subst h1
            exact Or.inl rfl
          rcases List.mem_cons.mp he2 with h2 | h3
          · subst h2
            simp [FsEvent.isWrite] at hw
          · exact Or.inl (hbands e h3)
        | ok hdr =>
          dsimp only
          intro e he hw
          rcases List.mem_cons.mp he with h1 | he2
          · subst h1
            exact Or.inl rfl
          rcases List.mem_cons.mp he2 with h2 | he3
          · subst h2
            simp [FsEvent.isWrite] at hw
          rcases List.mem_append.mp he3 with h3 | h4
          · exact Or.inl (hbands e h3)
          · rw [List.mem_singleton.mp h4]
            exact Or.inr rfl
  · rw [if_neg hs]
    intro e he hw
    rcases List.mem_singleton.mp he with h1
    subst h1
    exact Or.inl rfl

theorem runEngineFromMaps_write_paths (reflH radH : HMap) (pin : List Char)
    (cube : Cube) (cs : Nat) :
    ∀ e ∈ (runEngineFromMaps reflH radH pin cube cs).1, e.isWrite = true →
      e.path = replRefl pin ∨ e.path = replRefl pin ++ ".hdr".toList := by
  unfold runEngineFromMaps
  cases checkedDims reflH radH with
  | error e0 =>
    intro e he
    simp at he
  | ok dims =>
    cases dims with
    | mk sv rest =>
      cases rest with
      | mk lv bv =>
        dsimp only
        cases asShapeNat bv with
        | error e0 =>
          intro e he
          simp at he
        | ok nb =>
          cases asShapeNat lv with
          | error e0 =>
            intro e he
            simp at he
          | ok nl =>
            cases asShapeNat sv with
            | error e0 =>
              intro e he
              simp at he
            | ok ns =>
              cases wlLenGuard (selectWavelength radH) with
              | error e0 =>
                intro e he
                simp at he
              | ok u =>
                dsimp only
                cases hc : enginePost (replRefl pin) pin (selectWavelength radH) radH cube cs nb nl ns with
                | mk evs r =>
                  dsimp only
                  intro e he
                  have := enginePost_write_paths (replRefl pin) pin
                    (selectWavelength radH) radH cube cs nb nl ns e
                  rw [hc] at this
                  exact this he

/-- C9 amended: a run of `apply_enhanced_radiometric_correction` opens the
input cube read-only and never writes to the input data path, provided the
derived output path `pin.replace('reflectance', 'radcorr')` and its `.hdr`
companion differ from the input data path (as they always do when the path
follows the `reflectance` naming convention).  Every write event of the
whole run, header parsing included, targets the derived output files only. -/
theorem c9_input_not_mutated (reflL radL : List (List Char))
    (reflHP radHP pin : List Char) (cube : Cube) (cs : Nat)
    (h1 : replRefl pin ≠ pin) (h2 : replRefl pin ++ ".hdr".toList ≠ pin) :
    ∀ e ∈ (apply_enhanced_radiometric_correction reflL radL reflHP radHP pin cube cs).1,
      e.isWrite = true → e.path ≠ pin := by
  unfold apply_enhanced_radiometric_correction
  cases read_header reflL with
  | error e0 =>
    intro e he hw
    rcases List.mem_singleton.mp he with h3
    subst h3
    simp [FsEvent.isWrite] at hw
  | ok m1 =>
    cases read_header radL with
    | error e0 =>
      intro e he hw
      rcases List.mem_cons.mp he with h3 | he2
      · subst h3
        simp [FsEvent.isWrite] at hw
      rcases List.mem_singleton.mp he2 with h4
      subst h4
      simp [FsEvent.isWrite] at hw
    | ok m2 =>
      dsimp only
      intro e he hw
      rcases List.mem_cons.mp he with h3 | he2
      · subst h3
        simp [FsEvent.isWrite] at hw
      rcases List.mem_cons.mp he2 with h4 | he3
      · subst h4
        simp [FsEvent.isWrite] at hw
      rcases runEngineFromMaps_write_paths m1 m2 pin cube cs e he3 hw with hp | hp
      · rw [hp]
        exact h1
      · rw [hp]
        exact h2

/-- Witness for C9 amended: on a conventional `…reflectance…` path, the
concrete run's create event targets the derived output path, which differs
from the input path. -/
theorem c9_input_not_mutated_witness :
    FsEvent.path (FsEvent.create "a_radcorr.dat".toList) ≠ "a_reflectance.dat".toList :=
  c9_input_not_mutated
    ["samples = 1".toList, "lines = 1".toList, "bands = 1".toList]
    ["samples = 1".toList, "lines = 1".toList, "bands = 1".toList]
    "h1".toList "h2".toList "a_reflectance.dat".toList [[[1/2]]] 500
    (by with_unfolding_all decide) (by with_unfolding_all decide)
    (FsEvent.create "a_radcorr.dat".toList)
    (by with_unfolding_all decide) (by with_unfolding_all decide)

set_option maxRecDepth 10000 in
/-- C9 counterexample: for an input data path not containing `reflectance`
(here `cube.dat`), the derived output path equals the input path, and the
run's trace creates (truncates) and writes the input data file itself — the
input cube is mutated. -/
theorem c9_counterexample :
    replRefl "cube.dat".toList = "cube.dat".toList ∧
    FsEvent.create "cube.dat".toList ∈
      (apply_enhanced_radiometric_correction
        ["samples = 1".toList, "lines = 1".toList, "bands = 1".toList]
        ["samples = 1".toList, "lines = 1".toList, "bands = 1".toList]
        "h1".toList "h2".toList "cube.dat".toList [[[1/2]]] 500).1 ∧
    (FsEvent.create "cube.dat".toList).isWrite = true := by
  with_unfolding_all decide

/-- Whether a header value is the `Integer` kind. -/
def HVal.isIntVal : HVal → Bool
  | HVal.int _ => true
  | _ => false

/-- Whether a header value is the `FloatList` kind. -/
def HVal.isFloatListVal : HVal → Bool
  | HVal.floatList _ => true
  | _ => false

/-- Whether a decode result is a successfully produced `Integer` field. -/
def isIntResult : Except PyErr HVal → Bool
  | Except.ok (HVal.int _) => true
  | _ => false

theorem mem_dropWhile_of_mem (p : Char → Bool) (c : Char) (hc : p c = false) :
    ∀ l : List Char, c ∈ l → c ∈ l.dropWhile p := by
  intro l
  induction l with
  | nil => intro h; cases h
  | cons a t ih =>
    intro h
    by_cases ha : p a
    · rw [List.dropWhile_cons_of_pos ha]
      rcases List.mem_cons.mp h with h1 | h2
      · subst h1
        rw [hc] at ha
        cases ha
      · exact ih h2
    · rw [List.dropWhile_cons_of_neg ha]
      exact h

theorem mem_pyStrip_of_mem (c : Char) (hc : isPySpace c = false) (l : List Char)
    (h : c ∈ l) : c ∈ pyStrip l := by
  unfold pyStrip stripEnd
  rw [List.mem_reverse]
  apply mem_dropWhile_of_mem isPySpace c hc
  rw [List.mem_reverse]
  exact mem_dropWhile_of_mem isPySpace c hc l h

theorem mem_of_mem_pyStrip (c : Char) (l : List Char) (h : c ∈ pyStrip l) : c ∈ l := by
  unfold pyStrip stripEnd at h
  rw [List.mem_reverse] at h
  have h2 := (List.dropWhile_sublist isPySpace).mem h
  rw [List.mem_reverse] at h2
  exact (List.dropWhile_sublist isPySpace).mem h2

theorem all_eq_false_of_mem (p : Char → Bool) (c : Char) (l : List Char)
    (hmem : c ∈ l) (hc : p c = false) : l.all p = false := by
  by_cases hall : l.all p
  · have := List.all_eq_true.mp hall c hmem
    rw [hc] at this
    cases this
  · simpa using hall

theorem pyInt_of_comma (l : List Char) (h : ',' ∈ l) : pyInt? l = none := by
  have hmem : ',' ∈ pyStrip l := mem_pyStrip_of_mem ',' (by decide) l h
  have hne : pyStrip l ≠ [] := by
    intro hh
    rw [hh] at hmem
    cases hmem
  obtain ⟨c, rest, hs⟩ := List.exists_cons_of_ne_nil hne
  unfold pyInt?
  rw [hs]
  rw [hs] at hmem
  dsimp only
  by_cases hplus : c = '+'
  · rw [if_pos hplus]
    have hrest : ',' ∈ rest := by
      rcases List.mem_cons.mp hmem with h1 | h2
      · rw [hplus] at h1
        cases h1
      · exact h2
    unfold parseDigits?
    rw [all_eq_false_of_mem Char.isDigit ',' rest hrest (by decide)]
    simp
  · rw [if_neg hplus]
    by_cases hminus : c = '-'
    · rw [if_pos hminus]
      have hrest : ',' ∈ rest := by
        rcases List.mem_cons.mp hmem with h1 | h2
        · rw [hminus] at h1
          cases h1
        · exact h2
      unfold parseDigits?
      rw [all_eq_false_of_mem Char.isDigit ',' rest hrest (by decide)]
      simp
    · rw [if_neg hminus]
      unfold parseDigits?
      rw [all_eq_false_of_mem Char.isDigit ',' (c :: rest) hmem (by decide)]
      simp

/-- C5 counterexample: the unbraced scalar value `1,2` contains a comma, but
`read_header` keeps it verbatim as `Text "1,2"` — it is not comma-split and
float-parsed into a `FloatList [1.0, 2.0]` as the claimed coercion order
requires. -/
theorem c5_counterexample :
    read_header ["foo = 1,2".toList] =
      Except.ok [("foo".toList, HVal.text "1,2".toList)] ∧
    HVal.isFloatListVal (HVal.text "1,2".toList) = false ∧
    HVal.isIntVal (HVal.text "1,2".toList) = false := by
  with_unfolding_all decide

theorem intCoerce_text_of_not_numeric (key : List Char) (v : HVal)
    (hk : key ∉ numericKeys) : intCoerce key v = Except.ok v := by
  unfold intCoerce
  rw [if_neg hk]

/-- C5 amended: the value coercion `read_header` actually performs.
Comma-splitting with float parsing applies only to brace-delimited values
(FloatList on success, a list of the raw string pieces on failure); integer
parsing applies only to the keys `samples`, `lines`, `bands`, `data type`
and only to non-list values; every other value stays `Text` — in particular
an unbraced comma-containing value is kept as verbatim `Text`.  An assembled
comma-containing value never yields an `Integer` field (for a dimension key a
brace-delimited list raises a `TypeError` instead), and a multi-line list
value never yields an `Integer` either. -/
theorem c5_value_coercion (key value l : List Char)
    (pieces : List (List Char)) (xs : List ℚ) :
    (¬(lbrace ∈ value ∧ rbrace ∈ value) → key ∉ numericKeys →
      decodeIdleValue key value = Except.ok (HVal.text value)) ∧
    (¬(lbrace ∈ value ∧ rbrace ∈ value) → key ∈ numericKeys →
      decodeIdleValue key value =
        Except.ok (match pyInt? value with
          | some n => HVal.int n
          | none => HVal.text value)) ∧
    (',' ∈ l → pyInt? l = none) ∧
    ((lbrace ∈ value ∧ rbrace ∈ value) → ',' ∈ bracedInner value → key ∉ numericKeys →
      traverseFloats
          (((pySplitChar ',' (bracedInner value)).map pyStrip).filter (fun p => p ≠ [])) =
        some xs →
      decodeIdleValue key value = Except.ok (HVal.floatList xs)) ∧
    ((lbrace ∈ value ∧ rbrace ∈ value) → ',' ∈ bracedInner value → key ∉ numericKeys →
      traverseFloats
          (((pySplitChar ',' (bracedInner value)).map pyStrip).filter (fun p => p ≠ [])) =
        none →
      decodeIdleValue key value =
        Except.ok (HVal.strList
          (((pySplitChar ',' (bracedInner value)).map pyStrip).filter (fun p => p ≠ [])))) ∧
    ((lbrace ∈ value ∧ rbrace ∈ value) → ',' ∈ bracedInner value → key ∈ numericKeys →
      decodeIdleValue key value = Except.error PyErr.typeError) ∧
    HVal.isIntVal (decodeArrayData pieces) = false ∧
    (',' ∈ value → ¬(lbrace ∈ value ∧ rbrace ∈ value) →
      isIntResult (decodeIdleValue key value) = false) ∧
    ((lbrace ∈ value ∧ rbrace ∈ value) → ',' ∈ bracedInner value →
      isIntResult (decodeIdleValue key value) = false) := by
  refine ⟨?_, ?_, pyInt_of_comma l, ?_, ?_, ?_, ?_, ?_, ?_⟩
  · intro hbr hk
    unfold decodeIdleValue
    rw [if_neg hbr]
    exact intCoerce_text_of_not_numeric key (HVal.text value) hk
  · intro hbr hk
    unfold decodeIdleValue
    rw [if_neg hbr]
    unfold intCoerce
    rw [if_pos hk]
    dsimp only
    cases pyInt? value with
    | none => rfl
    | some n => rfl
  · intro hbr hcomma hk htr
    unfold decodeIdleValue
    rw [if_pos hbr, if_pos hcomma]
    unfold decodeSingleLineList
    rw [htr]
    exact intCoerce_text_of_not_numeric key (HVal.floatList xs) hk
  · intro hbr hcomma hk htr
    unfold decodeIdleValue
    rw [if_pos hbr, if_pos hcomma]
    unfold decodeSingleLineList
    rw [htr]
    exact intCoerce_text_of_not_numeric key _ hk
  · intro hbr hcomma hk
    unfold decodeIdleValue
    rw [if_pos hbr, if_pos hcomma]
    unfold decodeSingleLineList
    cases traverseFloats
        (((pySplitChar ',' (bracedInner value)).map pyStrip).filter (fun p => p ≠ [])) with
    | none =>
      unfold intCoerce
      rw [if_pos hk]
    | some ys =>
      unfold intCoerce
      rw [if_pos hk]
  · unfold decodeArrayData
    cases traverseFloats (pieces.filter (fun p => p ≠ [])) with
    | none => rfl
    | some ys => rfl
  · intro hcomma hbr
    unfold decodeIdleValue
    rw [if_neg hbr]
    unfold intCoerce
    by_cases hk : key ∈ numericKeys
    · rw [if_pos hk]
      dsimp only
      rw [pyInt_of_comma value hcomma]
      rfl
    · rw [if_neg hk]
      rfl
  · intro hbr hcomma
    unfold decodeIdleValue
    rw [if_pos hbr, if_pos hcomma]
    unfold decodeSingleLineList
    cases traverseFloats
        (((pySplitChar ',' (bracedInner value)).map pyStrip).filter (fun p => p ≠ [])) with
    | none =>
      unfold intCoerce
      by_cases hk : key ∈ numericKeys
      · rw [if_pos hk]
        rfl
      · rw [if_neg hk]
        rfl
    | some ys =>
      unfold intCoerce
      by_cases hk : key ∈ numericKeys
      · rw [if_pos hk]
        rfl
      · rw [if_neg hk]
        rfl

/-- Witness for C5 amended: concrete instances — an unbraced comma value for
a non-dimension key stays text; `samples = 7` parses as the integer 7; a
braced comma list parses to floats; a braced comma list under a dimension key
raises `TypeError`. -/
theorem c5_value_coercion_witness :
    decodeIdleValue "foo".toList "1,2".toList =
      Except.ok (HVal.text "1,2".toList) ∧
    decodeIdleValue "samples".toList "7".toList = Except.ok (HVal.int 7) ∧
    pyInt? "1,2".toList = none ∧
    decodeIdleValue "foo".toList "\x7b1.5, 2.5\x7d".toList =
      Except.ok (HVal.floatList [3/2, 5/2]) ∧
    decodeIdleValue "samples".toList "\x7b1, 2\x7d".toList =
      Except.error PyErr.typeError ∧
    HVal.isIntVal (decodeArrayData ["1".toList, "2".toList]) = false :=
  ⟨(c5_value_coercion "foo".toList "1,2".toList [] [] []).1
      (by with_unfolding_all decide) (by with_unfolding_all decide),
   by
     have := (c5_value_coercion "samples".toList "7".toList [] [] []).2.1
       (by with_unfolding_all decide) (by with_unfolding_all decide)
     rw [this]
     with_unfolding_all decide,
   (c5_value_coercion [] [] "1,2".toList [] []).2.2.1 (by with_unfolding_all decide),
   (c5_value_coercion "foo".toList "\x7b1.5, 2.5\x7d".toList [] [] [3/2, 5/2]).2.2.2.1
      (by with_unfolding_all decide) (by with_unfolding_all decide)
      (by with_unfolding_all decide) (by with_unfolding_all decide),
   (c5_value_coercion "samples".toList "\x7b1, 2\x7d".toList [] [] []).2.2.2.2.2.1
      (by with_unfolding_all decide) (by with_unfolding_all decide)
      (by with_unfolding_all decide),
   (c5_value_coercion [] [] [] ["1".toList, "2".toList] []).2.2.2.2.2.2.1⟩

theorem splitFirst_not_mem (c : Char) (l : List Char) (h : c ∉ l) :
    splitFirst c l = (l, none) := by
  induction l with
  | nil => rfl
  | cons a t ih =>
    simp only [splitFirst]
    have hac : ¬(a = c) := fun hac => h (by rw [hac]; exact List.mem_cons_self c t)
    rw [if_neg hac, ih (fun hc => h (List.mem_cons_of_mem a hc))]

/-- C6 counterexample: an input that ends while a braced list is still being
collected parses to `ok` with the empty map (pending key silently dropped),
and a non-blank line without `=` is silently skipped — no error of any kind
is raised for either malformed input. -/
theorem c6_counterexample :
    read_header ["wavelength = \x7b".toList, " 400.0,".toList] = Except.ok [] ∧
    read_header ["hello world".toList] = Except.ok [] := by
  with_unfolding_all decide

theorem intCoerce_error_typeError (key : List Char) (v : HVal) (e : PyErr)
    (h : intCoerce key v = Except.error e) : e = PyErr.typeError := by
  unfold intCoerce at h
  by_cases hk : key ∈ numericKeys
  · rw [if_pos hk] at h
    cases v with
    | text s =>
      dsimp only at h
      cases hpi : pyInt? s with
      | some n =>
        rw [hpi] at h
        exact Except.noConfusion h
      | none =>
        rw [hpi] at h
        exact Except.noConfusion h
    | int n => exact Except.noConfusion h
    | floatList xs =>
      injection h with h1
      exact h1.symm
    | strList xs =>
      injection h with h1
      exact h1.symm
  · rw [if_neg hk] at h
    exact Except.noConfusion h

theorem decodeIdleValue_error_typeError (key value : List Char) (e : PyErr)
    (h : decodeIdleValue key value = Except.error e) : e = PyErr.typeError := by
  unfold decodeIdleValue at h
  by_cases hbr : lbrace ∈ value ∧ rbrace ∈ value
  · rw [if_pos hbr] at h
    by_cases hc : ',' ∈ bracedInner value
    · rw [if_pos hc] at h
      exact intCoerce_error_typeError _ _ _ h
    · rw [if_neg hc] at h
      exact intCoerce_error_typeError _ _ _ h
  · rw [if_neg hbr] at h
    exact intCoerce_error_typeError _ _ _ h

theorem stepLine_error_typeError (st : PState) (l : List Char) (e : PyErr)
    (h : stepLine st l = Except.error e) : e = PyErr.typeError := by
  unfold stepLine at h
  by_cases h1 : pyStrip l = []
  · rw [if_pos h1] at h
    exact Except.noConfusion h
  rw [if_neg h1] at h
  by_cases h2 : st.cur ≠ [] ∧ rbrace ∉ pyStrip l
  · rw [if_pos h2] at h
    exact Except.noConfusion h
  rw [if_neg h2] at h
  by_cases h3 : st.cur ≠ [] ∧ rbrace ∈ pyStrip l
  · rw [if_pos h3] at h
    exact Except.noConfusion h
  rw [if_neg h3] at h
  cases hsp : splitFirst '=' (pyStrip l) with
  | mk pre q =>
    rw [hsp] at h
    cases q with
    | none =>
      exact Except.noConfusion h
    | some post =>
      dsimp only at h
      by_cases h4 : lbrace ∈ pyStrip post ∧ rbrace ∉ pyStrip post
      · rw [if_pos h4] at h
        exact Except.noConfusion h
      rw [if_neg h4] at h
      cases hdec : decodeIdleValue ((pyStrip pre).map Char.toLower) (pyStrip post) with
      | ok v =>
        rw [hdec] at h
        exact Except.noConfusion h
      | error e2 =>
        rw [hdec] at h
        injection h with h5
        rw [← h5]
        exact decodeIdleValue_error_typeError _ _ _ hdec

theorem runLines_error_typeError (ls : List (List Char)) :
    ∀ (st : PState) (e : PyErr), runLines st ls = Except.error e → e = PyErr.typeError := by
  induction ls with
  | nil =>
    intro st e h
    exact Except.noConfusion h
  | cons l rest ih =>
    intro st e h
    unfold runLines at h
    cases hs : stepLine st l with
    | ok st1 =>
      rw [hs] at h
      exact ih st1 e h
    | error e2 =>
      rw [hs] at h
      injection h with h5
      rw [← h5]
      exact stepLine_error_typeError st l e2 hs

/-- C6 amended: `read_header` raises no syntax error at all.  A non-blank
line outside a list that lacks `=` is silently skipped (the state is
unchanged), and input ending mid-list returns the map built so far with the
pending key dropped; the only runtime failure of the parser is the
`TypeError` from assigning a brace-delimited list to a dimension key. -/
theorem c6_no_syntax_errors (st : PState) (l : List Char) (ls : List (List Char))
    (e : PyErr) :
    (st.cur = [] → pyStrip l ≠ [] → '=' ∉ l → stepLine st l = Except.ok st) ∧
    (read_header ls = Except.error e → e = PyErr.typeError) := by
  constructor
  · intro hidle hne hnoeq
    unfold stepLine
    rw [if_neg hne, hidle]
    rw [if_neg (by simp)]
    rw [if_neg (by simp)]
    rw [splitFirst_not_mem '=' (pyStrip l)
      (fun hm => hnoeq (mem_of_mem_pyStrip '=' l hm))]
  · intro h
    unfold read_header at h
    cases hr : runLines ⟨[], [], []⟩ ls with
    | ok stf =>
      rw [hr] at h
      exact Except.noConfusion h
    | error e2 =>
      rw [hr] at h
      injection h with h5
      rw [← h5]
      exact runLines_error_typeError ls _ e2 hr

/-- Witness for C6 amended: the concrete line `hello world` is skipped
unchanged from the idle state, and the parse of an unterminated list input
produces no error. -/
theorem c6_no_syntax_errors_witness :
    stepLine ⟨[], [], []⟩ "hello world".toList = Except.ok ⟨[], [], []⟩ :=
  (c6_no_syntax_errors ⟨[], [], []⟩ "hello world".toList [] PyErr.typeError).1
    rfl (by with_unfolding_all decide) (by with_unfolding_all decide)

/-- The ten decimal digit characters. -/
def digitChars : List Char := ['0', '1', '2', '3', '4', '5', '6', '7', '8', '9']

theorem digitChar_mem_digitChars (d : Nat) (h : d < 10) : digitChar d ∈ digitChars := by
  interval_cases d <;> decide

theorem natToDecAux_mem (fuel : Nat) :
    ∀ n : Nat, n ≤ fuel → ∀ c ∈ natToDecAux fuel n, c ∈ digitChars := by
  induction fuel with
  | zero =>
    intro n h c hc
    have : n = 0 := Nat.le_zero.mp h
    subst this
    simp only [natToDecAux, List.mem_singleton] at hc
    subst hc
    exact digitChar_mem_digitChars 0 (by norm_num)
  | succ fuel ih =>
    intro n h c hc
    simp only [natToDecAux] at hc
    by_cases h10 : n < 10
    · rw [if_pos h10] at hc
      rcases List.mem_singleton.mp hc with h1
      subst h1
      exact digitChar_mem_digitChars n h10
    · rw [if_neg h10] at hc
      rcases List.mem_append.mp hc with h1 | h2
      · exact ih (n / 10) (by omega) c h1
      · rcases List.mem_singleton.mp h2 with h3
        subst h3
        exact digitChar_mem_digitChars (n % 10) (Nat.mod_lt n (by norm_num))

theorem natToDec_mem (n : Nat) : ∀ c ∈ natToDec n, c ∈ digitChars :=
  natToDecAux_mem n n le_rfl

theorem natToDecAux_ne_nil (fuel n : Nat) : natToDecAux fuel n ≠ [] := by
  cases fuel with
  | zero => simp [natToDecAux]
  | succ fuel =>
    simp only [natToDecAux]
    by_cases h10 : n < 10
    · rw [if_pos h10]
      simp
    · rw [if_neg h10]
      simp

theorem digitChar_toNat (d : Nat) (h : d < 10) : (digitChar d).toNat = 48 + d := by
  interval_cases d <;> decide

theorem digitsVal_append_one (xs : List Char) (c : Char) :
    digitsVal (xs ++ [c]) = 10 * digitsVal xs + (c.toNat - 48) := by
  unfold digitsVal
  rw [List.foldl_append]
  rfl

theorem digitsVal_natToDecAux (fuel : Nat) :
    ∀ n : Nat, n ≤ fuel → digitsVal (natToDecAux fuel n) = n := by
  induction fuel with
  | zero =>
    intro n h
    have : n = 0 := Nat.le_zero.mp h
    subst this
    decide
  | succ fuel ih =>
    intro n h
    simp only [natToDecAux]
    by_cases h10 : n < 10
    · rw [if_pos h10]
      show digitsVal [digitChar n] = n
      unfold digitsVal
      simp only [List.foldl_cons, List.foldl_nil]
      rw [digitChar_toNat n h10]
      omega
    · rw [if_neg h10]
      rw [digitsVal_append_one]
      rw [ih (n / 10) (by omega)]
      rw [digitChar_toNat (n % 10) (Nat.mod_lt n (by norm_num))]
      omega

theorem digitsVal_natToDec (n : Nat) : digitsVal (natToDec n) = n :=
  digitsVal_natToDecAux n n le_rfl

theorem natToDecAux_length (fuel : Nat) :
    ∀ n k : Nat, n ≤ fuel → 1 ≤ k → n < 10 ^ k → (natToDecAux fuel n).length ≤ k := by
  induction fuel with
  | zero =>
    intro n k h hk hp
    have : n = 0 := Nat.le_zero.mp h
    subst this
    simpa [natToDecAux] using hk
  | succ fuel ih =>
    intro n k h hk hp
    simp only [natToDecAux]
    by_cases h10 : n < 10
    · rw [if_pos h10]
      simpa using hk
    · rw [if_neg h10]
      rw [List.length_append, List.length_singleton]
      cases k with
      | zero => omega
      | succ k0 =>
        cases k0 with
        | zero =>
          rw [pow_one] at hp
          omega
        | succ k1 =>
          have hdiv : n / 10 < 10 ^ (k1 + 1) := by
            rw [Nat.div_lt_iff_lt_mul (by norm_num)]
            calc n < 10 ^ (k1 + 1 + 1) := hp
            _ = 10 ^ (k1 + 1) * 10 := by ring
          have := ih (n / 10) (k1 + 1) (by omega) (by omega) hdiv
          omega

theorem natToDec_length (n k : Nat) (hk : 1 ≤ k) (hp : n < 10 ^ k) :
    (natToDec n).length ≤ k :=
  natToDecAux_length n n k le_rfl hk hp

theorem pyStrip_eq_self_of_forall (l : List Char)
    (h : ∀ c ∈ l, isPySpace c = false) : pyStrip l = l := by
  have hdw : ∀ m : List Char, (∀ c ∈ m, isPySpace c = false) → m.dropWhile isPySpace = m := by
    intro m hm
    cases m with
    | nil => rfl
    | cons a t =>
      exact List.dropWhile_cons_of_neg (by rw [hm a (List.mem_cons_self a t)]; simp)
  unfold pyStrip stripEnd
  rw [hdw l h]
  rw [hdw l.reverse (fun c hc => h c (List.mem_reverse.mp hc))]
  exact List.reverse_reverse l

theorem digit_not_space (c : Char) (h : c ∈ digitChars) : isPySpace c = false := by
  fin_cases h <;> decide

theorem pyInt_natToDec (n : Nat) : pyInt? (natToDec n) = some (n : Int) := by
  obtain ⟨c, rest, hcr⟩ := List.exists_cons_of_ne_nil (natToDecAux_ne_nil n n)
  have hmem := natToDec_mem n
  unfold natToDec at hmem ⊢
  have hstrip : pyStrip (natToDecAux n n) = natToDecAux n n :=
    pyStrip_eq_self_of_forall _ (fun c hc => digit_not_space c (hmem c hc))
  unfold pyInt?
  rw [hstrip, hcr]
  dsimp only
  have hcd : c ∈ digitChars := hmem c (by rw [hcr]; exact List.mem_cons_self c rest)
  rw [if_neg (by fin_cases hcd <;> decide), if_neg (by fin_cases hcd <;> decide)]
  unfold parseDigits?
  rw [← hcr]
  have hall : (natToDecAux n n).all Char.isDigit = true :=
    List.all_eq_true.mpr (fun c hc => by
      have := hmem c hc
      fin_cases this <;> decide)
  have hne : (natToDecAux n n).isEmpty = false := by
    rw [List.isEmpty_eq_false_iff_exists_mem]
    exact ⟨c, by rw [hcr]; exact List.mem_cons_self c rest⟩
  rw [hall, hne]
  simp only [Bool.false_eq_true, if_false, if_true]
  rw [digitsVal_natToDecAux n n le_rfl]
  rfl

theorem ratRound6_of_sixDec (w : ℚ) (h : (w * 1000000).den = 1) :
    ratRound6 w = (w * 1000000).num := by
  unfold ratRound6
  rw [h]
  push_cast
  rw [Int.fdiv_eq_ediv _ (by norm_num)]
  omega

/-- The characters 6-decimal formatting can emit. -/
def fmtChars : List Char := '-' :: '.' :: digitChars

theorem pad6_mem (f : Nat) : ∀ c ∈ pad6 f, c ∈ digitChars := by
  intro c hc
  unfold pad6 at hc
  rcases List.mem_append.mp hc with h1 | h2
  · rw [List.eq_of_mem_replicate h1]
    decide
  · exact natToDec_mem f c h2

theorem fmt6_mem (w : ℚ) : ∀ c ∈ fmt6 w, c ∈ fmtChars := by
  intro c hc
  unfold fmt6 at hc
  rcases List.mem_append.mp hc with h1 | h4
  · rcases List.mem_append.mp h1 with h2 | h3
    · by_cases hz : ratRound6 w < 0
      · rw [if_pos hz] at h2
        rcases List.mem_singleton.mp h2 with h5
        subst h5
        decide
      · rw [if_neg hz] at h2
        cases h2
    · have := natToDec_mem _ c h3
      fin_cases this <;> decide
  · rcases List.mem_cons.mp h4 with h5 | h6
    · subst h5
      decide
    · have := pad6_mem _ c h6
      fin_cases this <;> decide

theorem fmt6_strip (w : ℚ) : pyStrip (fmt6 w) = fmt6 w :=
  pyStrip_eq_self_of_forall _ (fun c hc => by
    have := fmt6_mem w c hc
    fin_cases this <;> decide)

theorem digitsVal_replicate_zero (j : Nat) (l : List Char) :
    digitsVal (List.replicate j '0' ++ l) = digitsVal l := by
  unfold digitsVal
  rw [List.foldl_append]
  congr 1
  induction j with
  | zero => rfl
  | succ j ih =>
    rw [List.replicate_succ, List.foldl_cons]
    exact ih

theorem pad6_length (f : Nat) (h : f < 10 ^ 6) : (pad6 f).length = 6 := by
  unfold pad6
  rw [List.length_append, List.length_replicate]
  have := natToDec_length f 6 (by norm_num) h
  omega

theorem digitsVal_pad6 (f : Nat) : digitsVal (pad6 f) = f := by
  unfold pad6
  rw [digitsVal_replicate_zero, digitsVal_natToDec]

theorem splitFirst_append_cons (c : Char) (pre suf : List Char) (h : c ∉ pre) :
    splitFirst c (pre ++ c :: suf) = (pre, some suf) := by
  induction pre with
  | nil =>
    simp [splitFirst]
  | cons a t ih =>
    simp only [List.cons_append, splitFirst, List.append_eq]
    have ha : ¬(a = c) := fun hac => h (by rw [hac]; exact List.mem_cons_self c t)
    rw [if_neg ha, ih (fun hc => h (List.mem_cons_of_mem a hc))]

theorem parseMantissa_fmt (a f : Nat) (hf : f < 10 ^ 6) :
    parseMantissa (natToDec a ++ '.' :: pad6 f) =
      some ((a : ℚ) + (f : ℚ) / 10 ^ 6) := by
  unfold parseMantissa
  rw [splitFirst_append_cons '.' (natToDec a) (pad6 f)
    (fun hm => by have := natToDec_mem a '.' hm; revert this; decide)]
  dsimp only
  rw [if_neg (fun hm => by have := pad6_mem f '.' hm; revert this; decide)]
  have hane : (natToDec a).isEmpty = false := by
    rw [List.isEmpty_eq_false_iff_exists_mem]
    obtain ⟨c, rest, hcr⟩ := List.exists_cons_of_ne_nil (natToDecAux_ne_nil a a)
    exact ⟨c, by unfold natToDec; rw [hcr]; exact List.mem_cons_self c rest⟩
  rw [hane]
  have hada : (natToDec a).all Char.isDigit = true :=
    List.all_eq_true.mpr (fun c hc => by
      have := natToDec_mem a c hc
      fin_cases this <;> decide)
  have hpda : (pad6 f).all Char.isDigit = true :=
    List.all_eq_true.mpr (fun c hc => by
      have := pad6_mem f c hc
      fin_cases this <;> decide)
  rw [hada, hpda]
  simp only [Bool.false_and, Bool.false_eq_true, if_false, Bool.and_self, if_true]
  rw [digitsVal_natToDec, digitsVal_pad6, pad6_length f hf]

theorem body_mem (a f : Nat) :
    ∀ c ∈ natToDec a ++ '.' :: pad6 f, c ∈ '.' :: digitChars := by
  intro c hc
  rcases List.mem_append.mp hc with h1 | h2
  · exact List.mem_cons_of_mem '.' (natToDec_mem a c h1)
  · rcases List.mem_cons.mp h2 with h3 | h4
    · subst h3
      exact List.mem_cons_self '.' digitChars
    · exact List.mem_cons_of_mem '.' (pad6_mem f c h4)


theorem map_toLower_body (a f : Nat) :
    (natToDec a ++ '.' :: pad6 f).map Char.toLower = natToDec a ++ '.' :: pad6 f := by
  have h : ∀ c ∈ natToDec a ++ '.' :: pad6 f, Char.toLower c = c := by
    intro c hc
    have := body_mem a f c hc
    fin_cases this <;> decide
  calc (natToDec a ++ '.' :: pad6 f).map Char.toLower
      = (natToDec a ++ '.' :: pad6 f).map id := List.map_congr_left h
    _ = natToDec a ++ '.' :: pad6 f := List.map_id _

theorem splitFirst_e_body (a f : Nat) :
    splitFirst 'e' (natToDec a ++ '.' :: pad6 f) =
      (natToDec a ++ '.' :: pad6 f, none) := by
  apply splitFirst_not_mem
  intro hm
  have := body_mem a f 'e' hm
  revert this
  decide

theorem stripSign_body (a f : Nat) :
    stripSign (natToDec a ++ '.' :: pad6 f) =
      (false, natToDec a ++ '.' :: pad6 f) := by
  obtain ⟨c, t, hct⟩ := List.exists_cons_of_ne_nil (natToDecAux_ne_nil a a)
  have hcd : c ∈ digitChars := by
    apply natToDec_mem a
    unfold natToDec
    rw [hct]
    exact List.mem_cons_self c t
  have hcons : natToDec a ++ '.' :: pad6 f = c :: (t ++ '.' :: pad6 f) := by
    unfold natToDec
    rw [hct]
    rfl
  have hc1 : ¬(c = '-') := by fin_cases hcd <;> decide
  have hc2 : ¬(c = '+') := by fin_cases hcd <;> decide
  rw [hcons]
  simp only [stripSign]
  rw [if_neg hc1, if_neg hc2]

theorem pyFloat_body (a f : Nat) (hf : f < 10 ^ 6) :
    pyFloat? (natToDec a ++ '.' :: pad6 f) = some ((a : ℚ) + (f : ℚ) / 10 ^ 6) := by
  unfold pyFloat?
  rw [pyStrip_eq_self_of_forall _ (fun c hc => by
    have := body_mem a f c hc
    fin_cases this <;> decide)]
  rw [stripSign_body a f]
  dsimp only
  rw [map_toLower_body a f, splitFirst_e_body a f]
  dsimp only
  rw [parseMantissa_fmt a f hf]
  rfl

theorem pyFloat_neg_body (a f : Nat) (hf : f < 10 ^ 6) :
    pyFloat? ('-' :: (natToDec a ++ '.' :: pad6 f)) =
      some (-((a : ℚ) + (f : ℚ) / 10 ^ 6)) := by
  unfold pyFloat?
  rw [pyStrip_eq_self_of_forall _ (fun c hc => by
    rcases List.mem_cons.mp hc with h1 | h2
    · subst h1
      decide
    · have := body_mem a f c h2
      fin_cases this <;> decide)]
  have hsgn : stripSign ('-' :: (natToDec a ++ '.' :: pad6 f)) =
      (true, natToDec a ++ '.' :: pad6 f) := by
    simp [stripSign]
  rw [hsgn]
  dsimp only
  rw [map_toLower_body a f, splitFirst_e_body a f]
  dsimp only
  rw [parseMantissa_fmt a f hf]
  rfl

theorem pyFloat_fmt6 (w : ℚ) (h : (w * 1000000).den = 1) :
    pyFloat? (fmt6 w) = some w := by
  have hz := ratRound6_of_sixDec w h
  have hf : (w * 1000000).num.natAbs % 1000000 < 10 ^ 6 := Nat.mod_lt _ (by norm_num)
  have hwz : (((w * 1000000).num : ℤ) : ℚ) = w * 1000000 := by
    have h2 := Rat.num_div_den (w * 1000000)
    rw [h] at h2
    simpa using h2
  have hkey : (((w * 1000000).num.natAbs : ℕ) : ℚ) =
      ((w * 1000000).num.natAbs / 1000000 : ℕ) * 10 ^ 6 +
        ((w * 1000000).num.natAbs % 1000000 : ℕ) := by
    have h3 := Nat.div_add_mod (w * 1000000).num.natAbs 1000000
    have h4 : (((w * 1000000).num.natAbs : ℕ) : ℚ) =
        ((1000000 * ((w * 1000000).num.natAbs / 1000000) +
          (w * 1000000).num.natAbs % 1000000 : ℕ) : ℚ) := by
      exact_mod_cast congrArg (fun n : ℕ => (n : ℚ)) h3.symm
    rw [h4]
    push_cast
    ring
  by_cases hneg : ratRound6 w < 0
  · have hfmt : fmt6 w = '-' :: (natToDec ((w * 1000000).num.natAbs / 1000000) ++
        '.' :: pad6 ((w * 1000000).num.natAbs % 1000000)) := by
      unfold fmt6
      rw [if_pos hneg, hz]
      simp [List.append_assoc]
    rw [hfmt, pyFloat_neg_body _ _ hf]
    congr 1
    have hznum : (w * 1000000).num < 0 := hz ▸ hneg
    have habs : (((w * 1000000).num.natAbs : ℕ) : ℚ) = -(((w * 1000000).num : ℤ) : ℚ) := by
      rw [Int.cast_natAbs, Int.cast_abs]
      exact abs_of_neg (by exact_mod_cast hznum)
    rw [hkey, hwz] at habs
    have h10 : (1000000 : ℚ) = 10 ^ 6 := by norm_num
    rw [h10] at habs
    field_simp
    linarith
  · have hfmt : fmt6 w = natToDec ((w * 1000000).num.natAbs / 1000000) ++
        '.' :: pad6 ((w * 1000000).num.natAbs % 1000000) := by
      unfold fmt6
      rw [if_neg hneg, hz]
      simp [List.append_assoc]
    rw [hfmt, pyFloat_body _ _ hf]
    congr 1
    have hznum : 0 ≤ (w * 1000000).num := hz ▸ not_lt.mp hneg
    have habs : (((w * 1000000).num.natAbs : ℕ) : ℚ) = (((w * 1000000).num : ℤ) : ℚ) := by
      rw [Int.cast_natAbs, Int.cast_abs]
      exact abs_of_nonneg (by exact_mod_cast hznum)
    rw [hkey, hwz] at habs
    have h10 : (1000000 : ℚ) = 10 ^ 6 := by norm_num
    rw [h10] at habs
    field_simp
    linarith

theorem stripEnd_append_nonspace (x : List Char) (c : Char) (hc : isPySpace c = false) :
    stripEnd (x ++ [c]) = x ++ [c] := by
  unfold stripEnd
  rw [List.reverse_append]
  simp only [List.reverse_singleton, List.singleton_append]
  rw [List.dropWhile_cons_of_neg (by rw [hc]; simp)]
  simp

theorem stripEnd_append_space (x : List Char) :
    stripEnd (x ++ [' ']) = stripEnd x := by
  unfold stripEnd
  rw [List.reverse_append]
  simp only [List.reverse_singleton, List.singleton_append]
  rw [List.dropWhile_cons_of_pos (by decide)]

theorem dropWhile_cons_head (a : Char) (t : List Char) (ha : isPySpace a = false) :
    (a :: t).dropWhile isPySpace = a :: t :=
  List.dropWhile_cons_of_neg (by rw [ha]; simp)

theorem pyStrip_cons_space (l : List Char) : pyStrip (' ' :: l) = pyStrip l := by
  unfold pyStrip
  rw [List.dropWhile_cons_of_pos (by decide)]

theorem stripEnd_length_le (l : List Char) : (stripEnd l).length ≤ l.length := by
  unfold stripEnd
  rw [List.length_reverse]
  calc (l.reverse.dropWhile isPySpace).length ≤ l.reverse.length :=
        (List.dropWhile_sublist isPySpace).length_le
    _ = l.length := List.length_reverse l

theorem head_not_space_of_stripped (a : Char) (t : List Char)
    (h : pyStrip (a :: t) = a :: t) : isPySpace a = false := by
  by_contra hsp
  have hsp2 : isPySpace a = true := by simpa using hsp
  have hlen : (pyStrip (a :: t)).length ≤ t.length := by
    unfold pyStrip
    rw [List.dropWhile_cons_of_pos hsp2]
    calc (stripEnd (t.dropWhile isPySpace)).length ≤ (t.dropWhile isPySpace).length :=
          stripEnd_length_le _
      _ ≤ t.length := (List.dropWhile_sublist isPySpace).length_le
  rw [h] at hlen
  simp at hlen

theorem stripEnd_eq_self_of_pyStrip (v : List Char) (hs : pyStrip v = v) :
    stripEnd v = v := by
  have h1 : v.dropWhile isPySpace = v := by
    apply (List.dropWhile_sublist isPySpace).eq_of_length
    have h2 : (pyStrip v).length = v.length := by rw [hs]
    unfold pyStrip at h2
    have h3 := stripEnd_length_le (v.dropWhile isPySpace)
    have h4 := (List.dropWhile_sublist (l := v) isPySpace).length_le
    omega
  unfold pyStrip at hs
  rw [h1] at hs
  exact hs

theorem last_not_space (v y : List Char) (c : Char) (hv : v = y ++ [c])
    (hs : pyStrip v = v) : isPySpace c = false := by
  have hse := stripEnd_eq_self_of_pyStrip v hs
  by_contra hsp
  have hsp2 : isPySpace c = true := by simpa using hsp
  rw [hv] at hse
  unfold stripEnd at hse
  rw [List.reverse_append] at hse
  simp only [List.reverse_singleton, List.singleton_append] at hse
  rw [List.dropWhile_cons_of_pos hsp2] at hse
  have hlen := congrArg List.length hse
  simp only [List.length_reverse, List.length_append, List.length_singleton] at hlen
  have hle := (List.dropWhile_sublist (l := y.reverse) isPySpace).length_le
  rw [List.length_reverse] at hle
  omega

theorem pyStrip_kvLine_nil (a : Char) (t : List Char) (ha : isPySpace a = false) :
    pyStrip (kvLine (a :: t) []) = (a :: t) ++ [' ', '='] := by
  unfold kvLine pyStrip
  rw [List.cons_append, dropWhile_cons_head a _ ha]
  have h1 : a :: (t ++ [' ', '=', ' ']) = ((a :: t) ++ [' ', '=']) ++ [' '] := by
    simp
  rw [h1, stripEnd_append_space]
  have h2 : (a :: t) ++ [' ', '='] = ((a :: t) ++ [' ']) ++ ['='] := by
    simp
  rw [h2, stripEnd_append_nonspace _ '=' (by decide)]

theorem pyStrip_kvLine_cons (a : Char) (t v : List Char) (ha : isPySpace a = false)
    (hvne : v ≠ []) (hv : pyStrip v = v) :
    pyStrip (kvLine (a :: t) v) = kvLine (a :: t) v := by
  unfold kvLine pyStrip
  rw [List.cons_append, dropWhile_cons_head a _ ha]
  have hvsplit : v = v.dropLast ++ [v.getLast hvne] := (List.dropLast_append_getLast hvne).symm
  have hc := last_not_space v v.dropLast (v.getLast hvne) hvsplit hv
  have h1 : a :: (t ++ ' ' :: '=' :: ' ' :: v) =
      (a :: (t ++ ' ' :: '=' :: ' ' :: v.dropLast)) ++ [v.getLast hvne] := by
    conv_lhs => rw [hvsplit]
    simp
  rw [h1, stripEnd_append_nonspace _ _ hc, ← h1]

theorem pyStrip_append_single_space (a : Char) (t : List Char)
    (ha : isPySpace a = false) (hk : pyStrip (a :: t) = a :: t) :
    pyStrip ((a :: t) ++ [' ']) = a :: t := by
  unfold pyStrip
  rw [List.cons_append, dropWhile_cons_head a _ ha]
  rw [show a :: (t ++ [' ']) = (a :: t) ++ [' '] from by simp]
  rw [stripEnd_append_space]
  exact stripEnd_eq_self_of_pyStrip _ hk

theorem stepLine_kv (arr : List (List Char)) (M : HMap) (a : Char) (t v : List Char)
    (ha : isPySpace a = false) (hk : pyStrip (a :: t) = a :: t)
    (hkeq : '=' ∉ a :: t) (hv : pyStrip v = v) (hvb : lbrace ∉ v) :
    stepLine ⟨[], arr, M⟩ (kvLine (a :: t) v) =
      match decodeIdleValue ((a :: t).map Char.toLower) v with
      | Except.ok val => Except.ok ⟨[], arr, ((a :: t).map Char.toLower, val) :: M⟩
      | Except.error e => Except.error e := by
  unfold stepLine
  by_cases hv0 : v = []
  · subst hv0
    rw [pyStrip_kvLine_nil a t ha]
    rw [if_neg (by simp)]
    rw [if_neg (by simp)]
    rw [if_neg (by simp)]
    have hsf : splitFirst '=' ((a :: t) ++ [' ', '=']) = ((a :: t) ++ [' '], some []) := by
      rw [show (a :: t) ++ [' ', '='] = ((a :: t) ++ [' ']) ++ '=' :: [] from by simp]
      apply splitFirst_append_cons
      intro hm
      rcases List.mem_append.mp hm with h1 | h2
      · exact hkeq h1
      · simp at h2
    rw [hsf]
    dsimp only
    rw [pyStrip_append_single_space a t ha hk]
    simp only [show pyStrip ([] : List Char) = [] from rfl]
    rw [if_neg (by simp)]
  · rw [pyStrip_kvLine_cons a t v ha hv0 hv]
    rw [if_neg (by simp [kvLine])]
    rw [if_neg (by simp)]
    rw [if_neg (by simp)]
    have hsf : splitFirst '=' (kvLine (a :: t) v) = ((a :: t) ++ [' '], some (' ' :: v)) := by
      rw [show kvLine (a :: t) v = ((a :: t) ++ [' ']) ++ '=' :: (' ' :: v) from by
        simp [kvLine]]
      apply splitFirst_append_cons
      intro hm
      rcases List.mem_append.mp hm with h1 | h2
      · exact hkeq h1
      · simp at h2
    rw [hsf]
    dsimp only
    rw [pyStrip_append_single_space a t ha hk, pyStrip_cons_space, hv]
    rw [if_neg (fun hcon => hvb hcon.1)]

theorem pySplitChar_not_mem (c : Char) (l : List Char) (h : c ∉ l) :
    pySplitChar c l = [l] := by
  induction l with
  | nil => rfl
  | cons a t ih =>
    simp only [pySplitChar]
    have ha : ¬(a = c) := fun hac => h (by rw [hac]; exact List.mem_cons_self c t)
    rw [if_neg ha, ih (fun hc => h (List.mem_cons_of_mem a hc))]

theorem pySplitChar_append_cons (c : Char) (x y : List Char) (h : c ∉ x) :
    pySplitChar c (x ++ c :: y) = x :: pySplitChar c y := by
  induction x with
  | nil =>
    simp [pySplitChar]
  | cons a t ih =>
    simp only [List.cons_append, pySplitChar, List.append_eq]
    have ha : ¬(a = c) := fun hac => h (by rw [hac]; exact List.mem_cons_self c t)
    rw [if_neg ha, ih (fun hc => h (List.mem_cons_of_mem a hc))]

theorem traverseFloats_append (xs ys : List (List Char)) :
    traverseFloats (xs ++ ys) =
      match traverseFloats xs with
      | none => none
      | some vs => (traverseFloats ys).map (fun ws => vs ++ ws) := by
  induction xs with
  | nil =>
    simp only [List.nil_append, traverseFloats]
    cases traverseFloats ys with
    | none => rfl
    | some ws => simp
  | cons p rest ih =>
    simp only [List.cons_append, traverseFloats]
    cases pyFloat? p with
    | none => rfl
    | some q =>
      dsimp only
      rw [List.append_eq, ih]
      cases traverseFloats rest with
      | none => rfl
      | some vs =>
        cases traverseFloats ys with
        | none => rfl
        | some ws => rfl

theorem fmt6_ne_nil (w : ℚ) : fmt6 w ≠ [] := by
  unfold fmt6
  intro h
  rcases List.append_eq_nil.mp h with ⟨h1, h2⟩
  rcases List.append_eq_nil.mp h1 with ⟨-, h3⟩
  exact natToDecAux_ne_nil _ _ h3

theorem fmt6_not_mem_special (w : ℚ) (c : Char) (hc : c ∈ fmt6 w) :
    c ≠ rbrace ∧ c ≠ ',' ∧ isPySpace c = false := by
  have := fmt6_mem w c hc
  fin_cases this <;> refine ⟨by decide, by decide, by decide⟩

theorem stepLine_wl_midline (k : List Char) (hk : k ≠ []) (arr : List (List Char))
    (M : HMap) (w : ℚ) :
    stepLine ⟨k, arr, M⟩ (' ' :: (fmt6 w ++ [','])) =
      Except.ok ⟨k, arr ++ [fmt6 w, []], M⟩ := by
  unfold stepLine
  rw [pyStrip_cons_space]
  have hstrip : pyStrip (fmt6 w ++ [',']) = fmt6 w ++ [','] := by
    apply pyStrip_eq_self_of_forall
    intro c hc
    rcases List.mem_append.mp hc with h1 | h2
    · exact (fmt6_not_mem_special w c h1).2.2
    · rcases List.mem_singleton.mp h2 with h3
      subst h3
      decide
  rw [hstrip]
  rw [if_neg (by simp)]
  have hrb : rbrace ∉ fmt6 w ++ [','] := by
    intro hm
    rcases List.mem_append.mp hm with h1 | h2
    · exact (fmt6_not_mem_special w rbrace h1).1 rfl
    · simp at h2
      exact absurd h2 (by decide)
  rw [if_pos ⟨hk, hrb⟩]
  rw [pySplitChar_append_cons ',' (fmt6 w) []
    (fun hm => (fmt6_not_mem_special w ',' hm).2.1 rfl)]
  rw [show pySplitChar ',' [] = [[]] from rfl]
  simp only [List.map_cons, List.map_nil, fmt6_strip]
  rfl

theorem stepLine_wl_lastline (k : List Char) (hk : k ≠ []) (arr : List (List Char))
    (M : HMap) (w : ℚ) :
    stepLine ⟨k, arr, M⟩ (' ' :: (fmt6 w ++ [rbrace])) =
      Except.ok ⟨[], [], (k, decodeArrayData (arr ++ [fmt6 w])) :: M⟩ := by
  unfold stepLine
  rw [pyStrip_cons_space]
  have hstrip : pyStrip (fmt6 w ++ [rbrace]) = fmt6 w ++ [rbrace] := by
    apply pyStrip_eq_self_of_forall
    intro c hc
    rcases List.mem_append.mp hc with h1 | h2
    · exact (fmt6_not_mem_special w c h1).2.2
    · rcases List.mem_singleton.mp h2 with h3
      subst h3
      decide
  rw [hstrip]
  rw [if_neg (by simp)]
  have hrb : rbrace ∈ fmt6 w ++ [rbrace] := by
    apply List.mem_append.mpr
    right
    exact List.mem_singleton.mpr rfl
  rw [if_neg (by
    intro hcon
    exact hcon.2 hrb)]
  rw [if_pos ⟨hk, hrb⟩]
  rw [pySplitChar_append_cons rbrace (fmt6 w) []
    (fun hm => (fmt6_not_mem_special w rbrace hm).1 rfl)]
  simp only [List.headD_cons]
  rw [pySplitChar_not_mem ',' (fmt6 w)
    (fun hm => (fmt6_not_mem_special w ',' hm).2.1 rfl)]
  simp only [List.map_cons, List.map_nil, fmt6_strip]

theorem traverseFloats_single_fmt6 (w : ℚ) (h : (w * 1000000).den = 1) :
    traverseFloats [fmt6 w] = some [w] := by
  unfold traverseFloats
  rw [pyFloat_fmt6 w h]
  rfl

theorem runLines_wlValues (wkey : List Char) (hwkey : wkey ≠ []) :
    ∀ (ws : List ℚ) (acc : List (List Char)) (vs : List ℚ) (M : HMap),
      ws ≠ [] → (∀ w ∈ ws, (w * 1000000).den = 1) →
      traverseFloats (acc.filter (fun p => p ≠ [])) = some vs →
      runLines ⟨wkey, acc, M⟩ (wlValueLines ws) =
        Except.ok ⟨[], [], (wkey, HVal.floatList (vs ++ ws)) :: M⟩ := by
  intro ws
  induction ws with
  | nil =>
    intro acc vs M hne
    exact absurd rfl hne
  | cons w rest ih =>
    intro acc vs M hne hsix htr
    cases rest with
    | nil =>
      show runLines ⟨wkey, acc, M⟩ [' ' :: (fmt6 w ++ [rbrace])] = _
      unfold runLines
      rw [stepLine_wl_lastline wkey hwkey acc M w]
      unfold decodeArrayData
      rw [List.filter_append]
      rw [show List.filter (fun p => decide (p ≠ [])) [fmt6 w] = [fmt6 w] from by
        simp [fmt6_ne_nil w]]
      rw [traverseFloats_append, htr]
      rw [traverseFloats_single_fmt6 w (hsix w (List.mem_cons_self w []))]
      rfl
    | cons w2 rest2 =>
      show runLines ⟨wkey, acc, M⟩
        ((' ' :: (fmt6 w ++ [','])) :: wlValueLines (w2 :: rest2)) = _
      unfold runLines
      rw [stepLine_wl_midline wkey hwkey acc M w]
      dsimp only
      rw [ih (acc ++ [fmt6 w, []]) (vs ++ [w]) M (by simp)
        (fun x hx => hsix x (List.mem_cons_of_mem w hx)) (by
          rw [List.filter_append]
          rw [show List.filter (fun p => decide (p ≠ [])) [fmt6 w, []] = [fmt6 w] from by
            simp [fmt6_ne_nil w]]
          rw [traverseFloats_append, htr]
          rw [traverseFloats_single_fmt6 w (hsix w (List.mem_cons_self w (w2 :: rest2)))]
          rfl)]
      rw [List.append_assoc]
      rfl
theorem runLines_cons_ok (st st1 : PState) (x : List Char) (rest : List (List Char))
    (h : stepLine st x = Except.ok st1) : runLines st (x :: rest) = runLines st1 rest := by
  simp only [runLines]
  rw [h]

theorem runLines_cons_err (st : PState) (e : PyErr) (x : List Char)
    (rest : List (List Char)) (h : stepLine st x = Except.error e) :
    runLines st (x :: rest) = Except.error e := by
  simp only [runLines]
  rw [h]

theorem runLines_append (xs : List (List Char)) :
    ∀ (st : PState) (ys : List (List Char)),
      runLines st (xs ++ ys) =
        match runLines st xs with
        | Except.ok st1 => runLines st1 ys
        | Except.error e => Except.error e := by
  induction xs with
  | nil =>
    intro st ys
    rfl
  | cons x t ih =>
    intro st ys
    rw [List.cons_append]
    cases hsx : stepLine st x with
    | ok st1 =>
      rw [runLines_cons_ok st st1 x (t ++ ys) hsx, runLines_cons_ok st st1 x t hsx]
      exact ih st1 ys
    | error e =>
      rw [runLines_cons_err st e x (t ++ ys) hsx, runLines_cons_err st e x t hsx]

theorem stepLine_envi (arr : List (List Char)) (M : HMap) :
    stepLine ⟨[], arr, M⟩ "ENVI".toList = Except.ok ⟨[], arr, M⟩ := rfl

theorem stepLine_desc (arr : List (List Char)) (M : HMap) :
    stepLine ⟨[], arr, M⟩
      "description = \x7bRadiometrically corrected reflectance data\x7d".toList =
      Except.ok ⟨[], arr,
        ("description".toList,
          HVal.text "Radiometrically corrected reflectance data".toList) :: M⟩ := rfl

theorem stepLine_hoffset (arr : List (List Char)) (M : HMap) :
    stepLine ⟨[], arr, M⟩ "header offset = 0".toList =
      Except.ok ⟨[], arr, ("header offset".toList, HVal.text ['0']) :: M⟩ := rfl

theorem stepLine_ftype (arr : List (List Char)) (M : HMap) :
    stepLine ⟨[], arr, M⟩ "file type = ENVI Standard".toList =
      Except.ok ⟨[], arr, ("file type".toList, HVal.text "ENVI Standard".toList) :: M⟩ := rfl

theorem stepLine_dtype (arr : List (List Char)) (M : HMap) :
    stepLine ⟨[], arr, M⟩ "data type = 4".toList =
      Except.ok ⟨[], arr, ("data type".toList, HVal.int 4) :: M⟩ := rfl

theorem stepLine_ileave (arr : List (List Char)) (M : HMap) :
    stepLine ⟨[], arr, M⟩ "interleave = bsq".toList =
      Except.ok ⟨[], arr, ("interleave".toList, HVal.text "bsq".toList) :: M⟩ := rfl

theorem stepLine_border (arr : List (List Char)) (M : HMap) :
    stepLine ⟨[], arr, M⟩ "byte order = 0".toList =
      Except.ok ⟨[], arr, ("byte order".toList, HVal.text ['0']) :: M⟩ := rfl

theorem stepLine_wlHeader (M : HMap) :
    stepLine ⟨[], [], M⟩ "wavelength = \x7b".toList =
      Except.ok ⟨"wavelength".toList, [[]], M⟩ := rfl

theorem stepLine_kv_natVal (arr : List (List Char)) (M : HMap) (a : Char)
    (t : List Char) (n : Nat)
    (ha : isPySpace a = false) (hk : pyStrip (a :: t) = a :: t)
    (hkeq : '=' ∉ a :: t) (hlow : (a :: t).map Char.toLower = a :: t)
    (hnum : (a :: t) ∈ numericKeys) :
    stepLine ⟨[], arr, M⟩ (kvLine (a :: t) (natToDec n)) =
      Except.ok ⟨[], arr, (a :: t, HVal.int (n : Int)) :: M⟩ := by
  have hv : pyStrip (natToDec n) = natToDec n :=
    pyStrip_eq_self_of_forall _ (fun c hc => digit_not_space c (natToDec_mem n c hc))
  have hvb : lbrace ∉ natToDec n := by
    intro hm
    have := natToDec_mem n lbrace hm
    revert this
    decide
  rw [stepLine_kv arr M a t (natToDec n) ha hk hkeq hv hvb, hlow]
  have hdec : decodeIdleValue (a :: t) (natToDec n) = Except.ok (HVal.int (n : Int)) := by
    unfold decodeIdleValue
    rw [if_neg (fun hc => hvb hc.1)]
    unfold intCoerce
    rw [if_pos hnum]
    dsimp only
    rw [pyInt_natToDec]
  rw [hdec]

theorem stepLine_kv_textVal (arr : List (List Char)) (M : HMap) (a : Char)
    (t v : List Char)
    (ha : isPySpace a = false) (hk : pyStrip (a :: t) = a :: t)
    (hkeq : '=' ∉ a :: t) (hlow : (a :: t).map Char.toLower = a :: t)
    (hnum : (a :: t) ∉ numericKeys) (hv : pyStrip v = v) (hvb : lbrace ∉ v) :
    stepLine ⟨[], arr, M⟩ (kvLine (a :: t) v) =
      Except.ok ⟨[], arr, (a :: t, HVal.text v) :: M⟩ := by
  rw [stepLine_kv arr M a t v ha hk hkeq hv hvb, hlow]
  have hdec : decodeIdleValue (a :: t) v = Except.ok (HVal.text v) := by
    unfold decodeIdleValue
    rw [if_neg (fun hc => hvb hc.1)]
    unfold intCoerce
    rw [if_neg hnum]
  rw [hdec]

theorem stepLine_kv_samples (arr : List (List Char)) (M : HMap) (n : Nat) :
    stepLine ⟨[], arr, M⟩ (kvLine "samples".toList (natToDec n)) =
      Except.ok ⟨[], arr, ("samples".toList, HVal.int (n : Int)) :: M⟩ :=
  stepLine_kv_natVal arr M 's' "amples".toList n (by decide) (by decide) (by decide)
    (by decide) (by decide)

theorem stepLine_kv_lines (arr : List (List Char)) (M : HMap) (n : Nat) :
    stepLine ⟨[], arr, M⟩ (kvLine "lines".toList (natToDec n)) =
      Except.ok ⟨[], arr, ("lines".toList, HVal.int (n : Int)) :: M⟩ :=
  stepLine_kv_natVal arr M 'l' "ines".toList n (by decide) (by decide) (by decide)
    (by decide) (by decide)

theorem stepLine_kv_bands (arr : List (List Char)) (M : HMap) (n : Nat) :
    stepLine ⟨[], arr, M⟩ (kvLine "bands".toList (natToDec n)) =
      Except.ok ⟨[], arr, ("bands".toList, HVal.int (n : Int)) :: M⟩ :=
  stepLine_kv_natVal arr M 'b' "ands".toList n (by decide) (by decide) (by decide)
    (by decide) (by decide)

theorem runLines_fixed10 (s l b : Nat) (rest : List (List Char)) :
    runLines ⟨[], [], []⟩
      ("ENVI".toList ::
        "description = \x7bRadiometrically corrected reflectance data\x7d".toList ::
        kvLine "samples".toList (natToDec s) ::
        kvLine "lines".toList (natToDec l) ::
        kvLine "bands".toList (natToDec b) ::
        "header offset = 0".toList ::
        "file type = ENVI Standard".toList ::
        "data type = 4".toList ::
        "interleave = bsq".toList ::
        "byte order = 0".toList :: rest) =
      runLines ⟨[], [], fixedEntries s l b⟩ rest := by
  rw [runLines_cons_ok _ _ _ _ (stepLine_envi [] [])]
  rw [runLines_cons_ok _ _ _ _ (stepLine_desc [] [])]
  rw [runLines_cons_ok _ _ _ _ (stepLine_kv_samples [] _ s)]
  rw [runLines_cons_ok _ _ _ _ (stepLine_kv_lines [] _ l)]
  rw [runLines_cons_ok _ _ _ _ (stepLine_kv_bands [] _ b)]
  rw [runLines_cons_ok _ _ _ _ (stepLine_hoffset [] _)]
  rw [runLines_cons_ok _ _ _ _ (stepLine_ftype [] _)]
  rw [runLines_cons_ok _ _ _ _ (stepLine_dtype [] _)]
  rw [runLines_cons_ok _ _ _ _ (stepLine_ileave [] _)]
  rw [runLines_cons_ok _ _ _ _ (stepLine_border [] _)]
  rfl

theorem runLines_wlBlock (ws : List ℚ) (hsix : ∀ w ∈ ws, (w * 1000000).den = 1)
    (M : HMap) (rest : List (List Char)) :
    runLines ⟨[], [], M⟩
      ((if ws = [] then [] else "wavelength = \x7b".toList :: wlValueLines ws) ++ rest) =
      runLines ⟨[], [], wlEntry ws ++ M⟩ rest := by
  by_cases hws : ws = []
  · subst hws
    rw [if_pos rfl]
    rfl
  · rw [if_neg hws, List.cons_append]
    rw [runLines_cons_ok _ _ _ _ (stepLine_wlHeader M)]
    rw [runLines_append (wlValueLines ws)]
    rw [runLines_wlValues "wavelength".toList (by decide) ws [[]] [] M hws hsix rfl]
    dsimp only
    rw [show wlEntry ws = [("wavelength".toList, HVal.floatList ws)] from by
      unfold wlEntry; rw [if_neg hws]]
    rw [show (([] : List ℚ) ++ ws) = ws from rfl]
    rfl

theorem runLines_optLines (a : Char) (t : List Char)
    (ha : isPySpace a = false) (hk : pyStrip (a :: t) = a :: t)
    (hkeq : '=' ∉ a :: t) (hlow : (a :: t).map Char.toLower = a :: t)
    (hnum : (a :: t) ∉ numericKeys)
    (o : Option (List Char)) (ho : textFieldOk o = true)
    (arr : List (List Char)) (M : HMap) (rest : List (List Char)) :
    runLines ⟨[], arr, M⟩ (optLines (a :: t) o ++ rest) =
      runLines ⟨[], arr, optEntry (a :: t) o ++ M⟩ rest := by
  cases o with
  | none => rfl
  | some v =>
    simp only [textFieldOk, Bool.and_eq_true, decide_eq_true_eq] at ho
    rw [show optLines (a :: t) (some v) ++ rest = kvLine (a :: t) v :: rest from rfl]
    rw [runLines_cons_ok _ _ _ _
      (stepLine_kv_textVal arr M a t v ha hk hkeq hlow hnum ho.1 ho.2)]
    rfl

theorem runLines_optLines_last (a : Char) (t : List Char)
    (ha : isPySpace a = false) (hk : pyStrip (a :: t) = a :: t)
    (hkeq : '=' ∉ a :: t) (hlow : (a :: t).map Char.toLower = a :: t)
    (hnum : (a :: t) ∉ numericKeys)
    (o : Option (List Char)) (ho : textFieldOk o = true)
    (arr : List (List Char)) (M : HMap) :
    runLines ⟨[], arr, M⟩ (optLines (a :: t) o) =
      Except.ok ⟨[], arr, optEntry (a :: t) o ++ M⟩ := by
  cases o with
  | none => rfl
  | some v =>
    simp only [textFieldOk, Bool.and_eq_true, decide_eq_true_eq] at ho
    rw [show optLines (a :: t) (some v) = [kvLine (a :: t) v] from rfl]
    rw [runLines_cons_ok _ _ _ _
      (stepLine_kv_textVal arr M a t v ha hk hkeq hlow hnum ho.1 ho.2)]
    rfl

theorem runLines_optUnits (o : Option (List Char)) (ho : textFieldOk o = true)
    (arr : List (List Char)) (M : HMap) (rest : List (List Char)) :
    runLines ⟨[], arr, M⟩ (optLines "wavelength units".toList o ++ rest) =
      runLines ⟨[], arr, optEntry "wavelength units".toList o ++ M⟩ rest :=
  runLines_optLines 'w' "avelength units".toList (by decide) (by decide) (by decide)
    (by decide) (by decide) o ho arr M rest

theorem runLines_optAcq (o : Option (List Char)) (ho : textFieldOk o = true)
    (arr : List (List Char)) (M : HMap) (rest : List (List Char)) :
    runLines ⟨[], arr, M⟩ (optLines "acquisition date".toList o ++ rest) =
      runLines ⟨[], arr, optEntry "acquisition date".toList o ++ M⟩ rest :=
  runLines_optLines 'a' "cquisition date".toList (by decide) (by decide) (by decide)
    (by decide) (by decide) o ho arr M rest

theorem runLines_optSensor (o : Option (List Char)) (ho : textFieldOk o = true)
    (arr : List (List Char)) (M : HMap) :
    runLines ⟨[], arr, M⟩ (optLines "sensor type".toList o) =
      Except.ok ⟨[], arr, optEntry "sensor type".toList o ++ M⟩ :=
  runLines_optLines_last 's' "ensor type".toList (by decide) (by decide) (by decide)
    (by decide) (by decide) o ho arr M

theorem read_header_writeModel (m : HeaderModel) (h : WellFormedModel m = true) :
    read_header (writeModel m) = Except.ok (finalMap m) := by
  obtain ⟨s, l, b, wl, u, a, sn⟩ := m
  simp only [WellFormedModel, Bool.and_eq_true] at h
  obtain ⟨⟨⟨hwl, hu⟩, ha⟩, hsn⟩ := h
  have hsix : ∀ w ∈ Option.getD wl [], (w * 1000000).den = 1 := by
    cases wl with
    | none => intro w hw; exact absurd hw (List.not_mem_nil w)
    | some ws =>
      intro w hw
      simp only [Bool.and_eq_true, List.all_eq_true, beq_iff_eq] at hwl
      exact hwl.2 w hw
  unfold writeModel read_header
  dsimp only
  unfold headerWriterLines
  simp only [List.cons_append, List.nil_append, List.append_assoc]
  rw [runLines_fixed10 s l b]
  rw [runLines_wlBlock (Option.getD wl []) hsix (fixedEntries s l b)]
  rw [runLines_optUnits u hu]
  rw [runLines_optAcq a ha]
  rw [runLines_optSensor sn hsn]
  rfl

theorem pyGet_optEntry_ne (k1 k : List Char) (o : Option (List Char)) (rest : HMap)
    (h : k1 ≠ k) : pyGet (optEntry k1 o ++ rest) k = pyGet rest k := by
  cases o with
  | none => rfl
  | some v => exact pyGet_cons_ne k1 k (HVal.text v) rest h

theorem pyGet_wlEntry_ne (ws : List ℚ) (k : List Char) (rest : HMap)
    (h : "wavelength".toList ≠ k) : pyGet (wlEntry ws ++ rest) k = pyGet rest k := by
  unfold wlEntry
  by_cases hws : ws = []
  · rw [if_pos hws, List.nil_append]
  · rw [if_neg hws]
    exact pyGet_cons_ne _ k _ rest h

theorem extractModel_finalMap (m : HeaderModel) (h : WellFormedModel m = true) :
    extractModel (finalMap m) = some m := by
  obtain ⟨s, l, b, wl, u, a, sn⟩ := m
  simp only [WellFormedModel, Bool.and_eq_true] at h
  obtain ⟨⟨⟨hwl, hu⟩, ha⟩, hsn⟩ := h
  have hS : pyGet (finalMap ⟨s, l, b, wl, u, a, sn⟩) "samples".toList =
      some (HVal.int (s : Int)) := by
    unfold finalMap
    dsimp only
    rw [pyGet_optEntry_ne _ _ _ _ (by decide), pyGet_optEntry_ne _ _ _ _ (by decide),
        pyGet_optEntry_ne _ _ _ _ (by decide), pyGet_wlEntry_ne _ _ _ (by decide)]
    rfl
  have hL : pyGet (finalMap ⟨s, l, b, wl, u, a, sn⟩) "lines".toList =
      some (HVal.int (l : Int)) := by
    unfold finalMap
    dsimp only
    rw [pyGet_optEntry_ne _ _ _ _ (by decide), pyGet_optEntry_ne _ _ _ _ (by decide),
        pyGet_optEntry_ne _ _ _ _ (by decide), pyGet_wlEntry_ne _ _ _ (by decide)]
    rfl
  have hB : pyGet (finalMap ⟨s, l, b, wl, u, a, sn⟩) "bands".toList =
      some (HVal.int (b : Int)) := by
    unfold finalMap
    dsimp only
    rw [pyGet_optEntry_ne _ _ _ _ (by decide), pyGet_optEntry_ne _ _ _ _ (by decide),
        pyGet_optEntry_ne _ _ _ _ (by decide), pyGet_wlEntry_ne _ _ _ (by decide)]
    rfl
  have hW : pyGet (finalMap ⟨s, l, b, wl, u, a, sn⟩) "wavelength".toList =
      (if Option.getD wl [] = [] then none
       else some (HVal.floatList (Option.getD wl []))) := by
    unfold finalMap
    dsimp only
    rw [pyGet_optEntry_ne _ _ _ _ (by decide), pyGet_optEntry_ne _ _ _ _ (by decide),
        pyGet_optEntry_ne _ _ _ _ (by decide)]
    unfold wlEntry
    by_cases hws : Option.getD wl [] = []
    · rw [if_pos hws, if_pos hws]
      rfl
    · rw [if_neg hws, if_neg hws]
      rfl
  have hU : getText (finalMap ⟨s, l, b, wl, u, a, sn⟩) "wavelength units".toList = u := by
    unfold getText finalMap
    dsimp only
    rw [pyGet_optEntry_ne _ _ _ _ (by decide), pyGet_optEntry_ne _ _ _ _ (by decide)]
    cases u with
    | none =>
      rw [show optEntry "wavelength units".toList none = ([] : HMap) from rfl,
          List.nil_append, pyGet_wlEntry_ne _ _ _ (by decide)]
      rfl
    | some v => rfl
  have hA : getText (finalMap ⟨s, l, b, wl, u, a, sn⟩) "acquisition date".toList = a := by
    unfold getText finalMap
    dsimp only
    rw [pyGet_optEntry_ne _ _ _ _ (by decide)]
    cases a with
    | none =>
      rw [show optEntry "acquisition date".toList none = ([] : HMap) from rfl,
          List.nil_append, pyGet_optEntry_ne _ _ _ _ (by decide),
          pyGet_wlEntry_ne _ _ _ (by decide)]
      rfl
    | some v => rfl
  have hSn : getText (finalMap ⟨s, l, b, wl, u, a, sn⟩) "sensor type".toList = sn := by
    unfold getText finalMap
    dsimp only
    cases sn with
    | none =>
      rw [show optEntry "sensor type".toList none = ([] : HMap) from rfl,
          List.nil_append, pyGet_optEntry_ne _ _ _ _ (by decide),
          pyGet_optEntry_ne _ _ _ _ (by decide), pyGet_wlEntry_ne _ _ _ (by decide)]
      rfl
    | some v => rfl
  unfold extractModel
  rw [hS, hL, hB]
  dsimp only
  rw [if_pos (show (0 : Int) ≤ (s : Int) ∧ (0 : Int) ≤ (l : Int) ∧ (0 : Int) ≤ (b : Int)
    from ⟨by omega, by omega, by omega⟩)]
  rw [hW, hU, hA, hSn]
  cases wl with
  | none => rfl
  | some ws =>
    have hne : ws ≠ [] := by
      intro hcon
      subst hcon
      simp at hwl
    rw [if_neg (by simpa using hne)]
    rfl

/-- C7: for every well-formed header model — nonempty wavelength table with
every value exactly representable in six decimal places, and stripped,
brace-free optional text fields — serializing the model with the output
header writer and re-parsing the emitted lines with `read_header` reproduces
every field of the model: the integer dimensions, the wavelength float list,
and the pass-through text fields. -/
theorem c7_parse_serialize_round_trip (m : HeaderModel)
    (h : WellFormedModel m = true) :
    Except.map extractModel (read_header (writeModel m)) = Except.ok (some m) := by
  rw [read_header_writeModel m h]
  dsimp only [Except.map]
  rw [extractModel_finalMap m h]

theorem c7_parse_serialize_round_trip_witness :
    WellFormedModel
        ⟨3, 2, 4, some [500, 3/2], some "nm".toList, some "2026-01-01".toList,
          some "AFX".toList⟩ = true ∧
      Except.map extractModel
          (read_header (writeModel
            ⟨3, 2, 4, some [500, 3/2], some "nm".toList, some "2026-01-01".toList,
              some "AFX".toList⟩)) =
        Except.ok (some
          ⟨3, 2, 4, some [500, 3/2], some "nm".toList, some "2026-01-01".toList,
            some "AFX".toList⟩) :=
  ⟨by with_unfolding_all decide,
   c7_parse_serialize_round_trip _ (by with_unfolding_all decide)⟩

set_option maxRecDepth 10000 in
/-- C7 counterexample: the round trip fails without the six-decimal
restriction — the wavelength value `1/3` gives a model the spec counts as
well formed, yet the writer emits it as `0.333333` and re-parsing yields
that rounded value, not the original model. -/
theorem c7_counterexample :
    Except.map extractModel
        (read_header (writeModel ⟨1, 1, 1, some [1/3], none, none, none⟩)) ≠
      Except.ok (some ⟨1, 1, 1, some [1/3], none, none, none⟩) := by
  with_unfolding_all decide
